import Mathlib

/-!
# Verification of the geodesic flight-path geometry (static/geodesic.js)

This file gives an exact-real shallow embedding of the geometric core of the
repository: the two great-circle interpolators (`GeodesicLine.calculateGreatCircle`
and the dashboard's `calculateGeodesicPoints`), the dashboard's antimeridian
splitter `splitAtAntimeridian`, and the world-copy replication performed by
`createInfiniteGeodesicLine` / `createInfiniteMarker`.

Modelling conventions:
* A JavaScript `[lat, lon]` pair is a term of `ℝ × ℝ` (first component latitude).
* JavaScript numbers are modelled as real numbers; `Math.sin`, `Math.cos`,
  `Math.asin`, `Math.acos`, `Math.sqrt`, `Math.atan2` become `Real.sin`,
  `Real.cos`, `Real.arcsin`, `Real.arccos`, `Real.sqrt` and `atan2` below.
  IEEE-754 rounding, NaN and signed zero have no counterpart in this model;
  where a claim turns on them this is recorded in the results, not papered over.
* Loops become `List.range`/`List.foldl`; in-place `push` becomes list append.
-/

namespace Geodesic

open Real List

noncomputable section

/-- `Math.atan2 y x` (note the JavaScript argument order: `y` first): the angle
in `(-π, π]` of the point `(x, y)`, defined piecewise through `arctan` exactly as
the ECMAScript specification does for non-zero finite arguments, with
`atan2 0 0 = 0`.  (The IEEE signed-zero distinctions of `Math.atan2` collapse:
`ℝ` has a single zero.) -/
def atan2 (y x : ℝ) : ℝ :=
  if 0 < x then Real.arctan (y / x)
  else if x < 0 then
    (if 0 ≤ y then Real.arctan (y / x) + π else Real.arctan (y / x) - π)
  else if 0 < y then π / 2 else if y < 0 then -(π / 2) else 0

/-- Degrees to radians.  `geodesic.js` writes `x * Math.PI / 180` and
`dashboard.js` writes `x * toRad` with `const toRad = Math.PI / 180`; both
denote `x·π/180`. -/
def rad (x : ℝ) : ℝ := x * π / 180

/-! ### `GeodesicLine.calculateGreatCircle` (static/geodesic.js, lines 7-54) -/

/-- The argument of `Math.acos` on lines 18-21:
`sin φ1 * sin φ2 + cos φ1 * cos φ2 * cos Δλ` with `Δλ = λ2 - λ1`.  The class
implementation passes this to `acos` with no clamping. -/
def classCosArg (lat1 lon1 lat2 lon2 : ℝ) : ℝ :=
  sin (rad lat1) * sin (rad lat2) +
    cos (rad lat1) * cos (rad lat2) * cos (rad lon2 - rad lon1)

/-- The central angle `Δσ` of `calculateGreatCircle` (line 18).  In JavaScript
`Math.acos` returns NaN when floating-point rounding pushes its argument
outside `[-1, 1]`; over the exact reals the argument provably lies in
`[-1, 1]` (`classCosArg_mem_Icc`), so the `isNaN(Δσ)` disjunct of the
degenerate-case guard on line 24 is vacuous in this model and the guard is the
single comparison `Δσ < 0.001`. -/
def classΔσ (lat1 lon1 lat2 lon2 : ℝ) : ℝ := arccos (classCosArg lat1 lon1 lat2 lon2)

/-- The `while (lon > 180) lon -= 360` loop of line 47 in closed form: for
`x > 180` the loop subtracts `360` exactly `⌈(x-180)/360⌉` times (the smallest
count that lands at or below `180`, and it stops above `-180`). -/
def wrapDown (x : ℝ) : ℝ := if 180 < x then x - 360 * ((⌈(x - 180) / 360⌉ : ℤ) : ℝ) else x

/-- The `while (lon < -180) lon += 360` loop of line 48 in closed form. -/
def wrapUp (x : ℝ) : ℝ := if x < -180 then x + 360 * ((⌈(-180 - x) / 360⌉ : ℤ) : ℝ) else x

/-- Longitude normalisation of lines 46-48: both `while` loops in sequence. -/
def normalizeLon (x : ℝ) : ℝ := wrapUp (wrapDown x)

/-- One iteration of the interpolation loop of `calculateGreatCircle`
(lines 28-51) at loop index `i`: the vector-slerp intermediate point. -/
def classPoint (lat1 lon1 lat2 lon2 : ℝ) (numPoints i : ℕ) : ℝ × ℝ :=
  let φ1 := rad lat1
  let lam1 := rad lon1
  let φ2 := rad lat2
  let lam2 := rad lon2
  let Δσ := classΔσ lat1 lon1 lat2 lon2
  let fraction : ℝ := (i : ℝ) / (numPoints : ℝ)
  let A := sin ((1 - fraction) * Δσ) / sin Δσ
  let B := sin (fraction * Δσ) / sin Δσ
  let x := A * cos φ1 * cos lam1 + B * cos φ2 * cos lam2
  let y := A * cos φ1 * sin lam1 + B * cos φ2 * sin lam2
  let z := A * sin φ1 + B * sin φ2
  let φi := atan2 z (Real.sqrt (x * x + y * y))
  let lami := atan2 y x
  (φi * 180 / π, normalizeLon (lami * 180 / π))

/-- `GeodesicLine.calculateGreatCircle(lat1, lon1, lat2, lon2, numPoints)`
(static/geodesic.js, lines 7-54): the degenerate guard of lines 24-26 followed
by the `for (let i = 0; i <= numPoints; i++)` loop. -/
def calculateGreatCircle (lat1 lon1 lat2 lon2 : ℝ) (numPoints : ℕ) : List (ℝ × ℝ) :=
  if classΔσ lat1 lon1 lat2 lon2 < 0.001 then [(lat1, lon1), (lat2, lon2)]
  else (List.range (numPoints + 1)).map (classPoint lat1 lon1 lat2 lon2 numPoints)

/-! ### `calculateGeodesicPoints` (static/dashboard.js part, lines 146-207) -/

/-- The shortest-path unwrap of lines 154-162: the effective `λ2` (radians)
after the `±2π` adjustment applied when the raw longitude difference exceeds
`180` degrees. -/
def unwrapLam2 (lon1 lon2 : ℝ) : ℝ :=
  let lam1 := rad lon1
  let lam2 := rad lon2
  let lonDiff := (lam2 - lam1) * 180 / π
  if |lonDiff| > 180 then (if lonDiff > 0 then lam2 - 2 * π else lam2 + 2 * π) else lam2

/-- `Δλ = λ2 - λ1` (line 165) with the unwrapped `λ2`. -/
def dashΔlam (lon1 lon2 : ℝ) : ℝ := unwrapLam2 lon1 lon2 - rad lon1

/-- The clamped `Math.acos` argument of lines 168-173: the
spherical-law-of-cosines expression wrapped in `Math.max(-1, Math.min(1, ·))`. -/
def dashCosArg (lat1 lon1 lat2 lon2 : ℝ) : ℝ :=
  max (-1) (min 1 (sin (rad lat1) * sin (rad lat2) +
    cos (rad lat1) * cos (rad lat2) * cos (dashΔlam lon1 lon2)))

/-- The central angle `Δσ` of `calculateGeodesicPoints` (lines 168-173). -/
def dashΔσ (lat1 lon1 lat2 lon2 : ℝ) : ℝ := arccos (dashCosArg lat1 lon1 lat2 lon2)

/-- The initial bearing `θ` of lines 180-183. -/
def dashθ (lat1 lon1 lat2 lon2 : ℝ) : ℝ :=
  atan2 (sin (dashΔlam lon1 lon2) * cos (rad lat2))
    (cos (rad lat1) * sin (rad lat2) - sin (rad lat1) * cos (rad lat2) * cos (dashΔlam lon1 lon2))

/-- One iteration of the point loop of lines 186-204 (direct spherical
trigonometry along the initial bearing; the produced longitude is NOT
normalised to `[-180, 180]`). -/
def dashPoint (lat1 lon1 lat2 lon2 : ℝ) (numPoints i : ℕ) : ℝ × ℝ :=
  let φ1 := rad lat1
  let f : ℝ := (i : ℝ) / (numPoints : ℝ)
  let σ := f * dashΔσ lat1 lon1 lat2 lon2
  let θ := dashθ lat1 lon1 lat2 lon2
  let φ := arcsin (sin φ1 * cos σ + cos φ1 * sin σ * cos θ)
  let lam := rad lon1 + atan2 (sin θ * sin σ * cos φ1) (cos σ - sin φ1 * sin φ)
  (φ * 180 / π, lam * 180 / π)

/-- `calculateGeodesicPoints(lat1, lon1, lat2, lon2, numPoints)`
(static/dashboard.js part, lines 146-207). -/
def calculateGeodesicPoints (lat1 lon1 lat2 lon2 : ℝ) (numPoints : ℕ) : List (ℝ × ℝ) :=
  if dashΔσ lat1 lon1 lat2 lon2 < 0.001 then [(lat1, lon1), (lat2, lon2)]
  else (List.range (numPoints + 1)).map (dashPoint lat1 lon1 lat2 lon2 numPoints)

/-! ### `splitAtAntimeridian` (static/dashboard.js part, lines 209-246) -/

/-- The body of the `for` loop of the dashboard `splitAtAntimeridian`
(lines 213-239) as a fold step over the state `(segments, currentSegment)`.
The `currentSegment.length === 0` test becomes the `getLast?` match (the
`else` branch reads `currentSegment[currentSegment.length - 1]`, the last
element); `push` becomes list append. -/
def splitStep (acc : List (List (ℝ × ℝ)) × List (ℝ × ℝ)) (p : ℝ × ℝ) :
    List (List (ℝ × ℝ)) × List (ℝ × ℝ) :=
  match acc.2.getLast? with
  | none => (acc.1, [p])
  | some prev =>
    if |p.2 - prev.2| > 180 then
      let fraction := (180 - |prev.2|) / |p.2 - prev.2|
      let midLat := prev.1 + (p.1 - prev.1) * fraction
      let midLon : ℝ := if prev.2 > 0 then 179.999 else -179.999
      let otherLon : ℝ := if prev.2 > 0 then -179.999 else 179.999
      (acc.1 ++ [acc.2 ++ [(midLat, midLon)]], [(midLat, otherLon), p])
    else (acc.1, acc.2 ++ [p])

/-- `splitAtAntimeridian(points)` (static/dashboard.js part, lines 209-246):
fold the loop body over the points, then the final
`if (currentSegment.length > 0) segments.push(currentSegment)`. -/
def splitAtAntimeridian (points : List (ℝ × ℝ)) : List (List (ℝ × ℝ)) :=
  let st := points.foldl splitStep ([], [])
  if st.2.length > 0 then st.1 ++ [st.2] else st.1

/-! ### World-copy replication (static/dashboard.js part, lines 251-315) -/

/-- The offsets traversed by `for (let offset = -720; offset <= 720; offset += 360)`. -/
def offsets : List ℤ := [-720, -360, 0, 360, 720]

/-- One polyline of `createInfiniteGeodesicLine` (lines 270-276): its shifted
coordinates and its `interactive` flag.  Rendering options (colour, weight,
popup text) carry no geometric content and are omitted. -/
structure LineUnit where
  pts : List (ℝ × ℝ)
  interactive : Bool

/-- One circle marker of `createInfiniteMarker` (lines 297-304). -/
structure MarkerUnit where
  pos : ℝ × ℝ
  interactive : Bool

/-- `segments.forEach((segment, segmentIndex) => …)` of lines 265-285 with the
inner offset loop: each copy shifts longitudes by `offset` (line 269) and is
interactive exactly when `offset === 0 && segmentIndex === 0` (line 275). -/
def replicateSegmentsFrom (segmentIndex : ℕ) : List (List (ℝ × ℝ)) → List LineUnit
  | [] => []
  | segment :: rest =>
    offsets.map (fun (offset : ℤ) =>
      { pts := segment.map fun point => (point.1, point.2 + (offset : ℝ)),
        interactive := offset == 0 && segmentIndex == 0 }) ++
      replicateSegmentsFrom (segmentIndex + 1) rest

/-- The replication performed by `createInfiniteGeodesicLine` on its computed
segments (lines 265-285). -/
def replicateSegments (segments : List (List (ℝ × ℝ))) : List LineUnit :=
  replicateSegmentsFrom 0 segments

/-- `createInfiniteGeodesicLine(origin, dest, options)` (lines 251-288):
interpolate at resolution 100, split at the antimeridian, then build one
polyline per segment and world-copy offset. -/
def createInfiniteGeodesicLine (origin dest : ℝ × ℝ) : List LineUnit :=
  let geodesicPoints := calculateGeodesicPoints origin.1 origin.2 dest.1 dest.2 100
  let segments := splitAtAntimeridian geodesicPoints
  replicateSegments segments

/-- `createInfiniteMarker(latlng, options, popupContent)` (lines 291-315): one
circle marker per world-copy offset, interactive exactly at `offset === 0`. -/
def createInfiniteMarker (latlng : ℝ × ℝ) : List MarkerUnit :=
  offsets.map fun (offset : ℤ) =>
    { pos := (latlng.1, latlng.2 + (offset : ℝ)), interactive := offset == 0 }

/-! ### Reassembly of split segments (specification vocabulary)

`rejoin` concatenates a segment list while ignoring the boundary points the
splitter inserted: every segment before the last drops its trailing crossing
point and every segment after the first drops its leading mirrored point. -/

/-- Reassembly of the segments after the first: each drops its leading
inserted point, and all but the last also drop their trailing inserted point. -/
def rejoinTail : List (List (ℝ × ℝ)) → List (ℝ × ℝ)
  | [] => []
  | [s] => s.tail
  | s :: ss => s.tail.dropLast ++ rejoinTail ss

/-- Concatenation of split segments ignoring inserted boundary points. -/
def rejoin : List (List (ℝ × ℝ)) → List (ℝ × ℝ)
  | [] => []
  | [s] => s
  | s :: ss => s.dropLast ++ rejoinTail ss

end

/-- Auxiliary: on the open right half plane, `arctan (y / x)` is the arcsine of
`y` over the radius. -/
theorem arctan_div_eq_arcsin {x y : ℝ} (hx : 0 < x) :
    Real.arctan (y / x) = Real.arcsin (y / Real.sqrt (x * x + y * y)) := by
  have hr2 : 0 < x * x + y * y := by nlinarith
  have hr : 0 < Real.sqrt (x * x + y * y) := Real.sqrt_pos.mpr hr2
  have hmem : y / Real.sqrt (x * x + y * y) ∈ Set.Ioo (-1 : ℝ) 1 := by
    constructor
    · rw [neg_lt, ← neg_div]
      rw [div_lt_one hr]
      nlinarith [Real.sq_sqrt hr2.le, Real.sqrt_nonneg (x * x + y * y)]
    · rw [div_lt_one hr]
      nlinarith [Real.sq_sqrt hr2.le, Real.sqrt_nonneg (x * x + y * y)]
  rw [Real.arcsin_eq_arctan hmem]
  congr 1
  have hs : Real.sqrt (x * x + y * y) ^ 2 = x * x + y * y := Real.sq_sqrt hr2.le
  have h1 : 1 - (y / Real.sqrt (x * x + y * y)) ^ 2 = (x / Real.sqrt (x * x + y * y)) ^ 2 := by
    field_simp
    nlinarith [hs]
  rw [h1, Real.sqrt_sq (by positivity)]
  have hxne : x ≠ 0 := ne_of_gt hx
  have hrne : Real.sqrt (x * x + y * y) ≠ 0 := ne_of_gt hr
  field_simp

/-- The piecewise `atan2` is the complex argument of `x + y·i`.  All further
facts about `atan2` are inherited from `Complex.arg` through this bridge. -/
theorem atan2_eq_arg (y x : ℝ) : atan2 y x = Complex.arg ⟨x, y⟩ := by
  have habs : (Complex.abs ⟨x, y⟩) = Real.sqrt (x * x + y * y) := by
    rw [Complex.abs_apply, Complex.normSq_mk]
  rcases lt_trichotomy x 0 with hx | hx | hx
  · -- left half plane
    have hxre : ¬ (0 ≤ (Complex.mk x y).re) := by simpa using not_le.mpr hx
    rcases le_or_lt 0 y with hy | hy
    · have : Complex.arg ⟨x, y⟩ = Real.arcsin ((-(Complex.mk x y)).im / Complex.abs ⟨x, y⟩) + π := by
        rw [Complex.arg]; rw [if_neg hxre, if_pos (by simpa using hy)]
      rw [this]
      have him : (-(Complex.mk x y)).im = -y := rfl
      rw [him, habs]
      have hx' : 0 < -x := by linarith
      have harc : Real.arctan (y / x) = - Real.arctan (y / -x) := by
        rw [← Real.arctan_neg]; congr 1; field_simp
      have := arctan_div_eq_arcsin (x := -x) (y := y) hx'
      have hsq : -x * -x + y * y = x * x + y * y := by ring
      rw [hsq] at this
      simp only [atan2, if_neg (by linarith : ¬ (0 < x)), if_pos hx, if_pos hy]
      rw [harc, this, ← Real.arcsin_neg]
      rw [neg_div]
    · have : Complex.arg ⟨x, y⟩ = Real.arcsin ((-(Complex.mk x y)).im / Complex.abs ⟨x, y⟩) - π := by
        rw [Complex.arg]; rw [if_neg hxre, if_neg (by simpa using not_le.mpr hy)]
      rw [this]
      have him : (-(Complex.mk x y)).im = -y := rfl
      rw [him, habs]
      have hx' : 0 < -x := by linarith
      have harc : Real.arctan (y / x) = - Real.arctan (y / -x) := by
        rw [← Real.arctan_neg]; congr 1; field_simp
      have := arctan_div_eq_arcsin (x := -x) (y := y) hx'
      have hsq : -x * -x + y * y = x * x + y * y := by ring
      rw [hsq] at this
      simp only [atan2, if_neg (by linarith : ¬ (0 < x)), if_pos hx, if_neg (not_le.mpr hy)]
      rw [harc, this, ← Real.arcsin_neg]
      rw [neg_div]
  · -- the imaginary axis
    subst hx
    have h0 : Complex.arg ⟨0, y⟩ = Real.arcsin (y / Complex.abs ⟨0, y⟩) := by
      rw [Complex.arg, if_pos (by simp)]
    rcases lt_trichotomy y 0 with hy | hy | hy
    · have habs' : (Complex.abs ⟨0, y⟩) = -y := by
        rw [Complex.abs_apply, Complex.normSq_mk]
        rw [show (0 : ℝ) * 0 + y * y = (-y) ^ 2 by ring, Real.sqrt_sq (by linarith)]
      rw [h0, habs']
      have : y / -y = -1 := by rw [div_neg, div_self hy.ne]
      rw [this, Real.arcsin_neg, Real.arcsin_one]
      simp only [atan2]
      rw [if_neg (lt_irrefl 0), if_neg (lt_irrefl 0), if_neg (asymm hy), if_pos hy]
    · subst hy
      rw [h0]
      have habs0 : Real.arcsin ((0 : ℝ) / Complex.abs ⟨0, 0⟩) = 0 := by simp
      rw [habs0]
      simp only [atan2]
      rw [if_neg (lt_irrefl 0), if_neg (lt_irrefl 0), if_neg (lt_irrefl 0), if_neg (lt_irrefl 0)]
    · have habs' : (Complex.abs ⟨0, y⟩) = y := by
        rw [Complex.abs_apply, Complex.normSq_mk]
        rw [show (0 : ℝ) * 0 + y * y = y ^ 2 by ring, Real.sqrt_sq hy.le]
      rw [h0, habs']
      have : y / y = 1 := div_self hy.ne'
      rw [this, Real.arcsin_one]
      simp only [atan2]
      rw [if_neg (lt_irrefl 0), if_neg (lt_irrefl 0), if_pos hy]
  · -- right half plane
    have : Complex.arg ⟨x, y⟩ = Real.arcsin (y / Complex.abs ⟨x, y⟩) := by
      rw [Complex.arg, if_pos (by simpa using hx.le)]
    rw [this, habs]
    simp only [atan2, if_pos hx]
    exact arctan_div_eq_arcsin hx

/-- `atan2` takes values in `(-π, π]`, like `Math.atan2`. -/
theorem atan2_mem_Ioc (y x : ℝ) : atan2 y x ∈ Set.Ioc (-π) π := by
  rw [atan2_eq_arg]; exact Complex.arg_mem_Ioc _

/-- With a non-negative first argument (upper half plane) `atan2` lands in `[0, π]`. -/
theorem atan2_nonneg {y x : ℝ} (hy : 0 ≤ y) : 0 ≤ atan2 y x := by
  rw [atan2_eq_arg]; exact Complex.arg_nonneg_iff.mpr (by simpa using hy)

/-- `atan2` never reaches `π` unless the point lies on the negative real axis. -/
theorem atan2_ne_pi {y x : ℝ} (h : ¬ (x < 0 ∧ y = 0)) : atan2 y x ≠ π := by
  rw [atan2_eq_arg]
  intro hc
  exact h (by simpa using Complex.arg_eq_pi_iff.mp hc)

/-- `atan2 0 x = 0` for `0 ≤ x`. -/
theorem atan2_zero_of_nonneg {x : ℝ} (hx : 0 ≤ x) : atan2 0 x = 0 := by
  rw [atan2_eq_arg]
  exact Complex.arg_eq_zero_iff.mpr (by simpa using hx)

/-- Recovery: `atan2 (sin t) (cos t) = t` on the principal range `(-π, π]`. -/
theorem atan2_sin_cos {t : ℝ} (ht : t ∈ Set.Ioc (-π) π) : atan2 (Real.sin t) (Real.cos t) = t := by
  rw [atan2_eq_arg]
  have : (Complex.mk (Real.cos t) (Real.sin t)) = Complex.cos t + Complex.sin t * Complex.I := by
    apply Complex.ext <;> simp [Complex.cos_ofReal_re, Complex.sin_ofReal_re]
  rw [this]
  exact Complex.arg_cos_add_sin_mul_I ht

/-- Scaling both arguments by a positive factor leaves `atan2` unchanged. -/
theorem atan2_mul_left {k y x : ℝ} (hk : 0 < k) : atan2 (k * y) (k * x) = atan2 y x := by
  rw [atan2_eq_arg, atan2_eq_arg]
  have : (Complex.mk (k * x) (k * y)) = (k : ℂ) * ⟨x, y⟩ := by
    apply Complex.ext <;> simp
  rw [this]
  exact Complex.arg_real_mul _ hk

/-- `sin (atan2 y x) = y / √(x² + y²)` (with the `0/0 = 0` convention at the origin). -/
theorem sin_atan2 (y x : ℝ) : Real.sin (atan2 y x) = y / Real.sqrt (x * x + y * y) := by
  rw [atan2_eq_arg]
  have := Complex.sin_arg ⟨x, y⟩
  rwa [Complex.abs_apply, Complex.normSq_mk] at this

/-- `cos (atan2 y x) = x / √(x² + y²)` away from the origin. -/
theorem cos_atan2 {y x : ℝ} (h : ¬ (x = 0 ∧ y = 0)) :
    Real.cos (atan2 y x) = x / Real.sqrt (x * x + y * y) := by
  rw [atan2_eq_arg]
  have hne : (Complex.mk x y) ≠ 0 := by
    intro hc
    exact h ⟨congrArg Complex.re hc, congrArg Complex.im hc⟩
  have := Complex.cos_arg hne
  rwa [Complex.abs_apply, Complex.normSq_mk] at this

/-! ### Splitter lemmas -/

/-- An empty `currentSegment` admits the incoming point as a fresh segment start. -/
theorem splitStep_nil (segs : List (List (ℝ × ℝ))) (p : ℝ × ℝ) :
    splitStep (segs, []) p = (segs, [p]) := rfl

/-- A `getLast?`-free restatement of the fresh-segment branch. -/
theorem splitStep_none {segs : List (List (ℝ × ℝ))} {cur : List (ℝ × ℝ)} {p : ℝ × ℝ}
    (hl : cur.getLast? = none) : splitStep (segs, cur) p = (segs, [p]) := by
  simp only [splitStep, hl]

/-- Appending one point related to the last element preserves a chain. -/
theorem chain'_snoc_of {α : Type} {R : α → α → Prop} {l : List α} {prev x : α}
    (hch : List.Chain' R l) (hl : l.getLast? = some prev) (hR : R prev x) :
    List.Chain' R (l ++ [x]) := by
  rw [List.chain'_append]
  refine ⟨hch, List.chain'_singleton x, ?_⟩
  intro a ha b hb
  rw [hl] at ha
  have ha' : a = prev := (Option.mem_some_iff.mp ha).symm
  have hb' : b = x := by
    simp only [List.head?_cons] at hb
    exact (Option.mem_some_iff.mp hb).symm
  rw [ha', hb']
  exact hR

/-- The crossing branch of the loop body (lines 222-234). -/
theorem splitStep_cross {segs : List (List (ℝ × ℝ))} {cur : List (ℝ × ℝ)}
    {prev p : ℝ × ℝ} (hl : cur.getLast? = some prev) (hc : |p.2 - prev.2| > 180) :
    splitStep (segs, cur) p =
      (segs ++ [cur ++ [(prev.1 + (p.1 - prev.1) * ((180 - |prev.2|) / |p.2 - prev.2|),
          if prev.2 > 0 then (179.999 : ℝ) else -179.999)]],
        [(prev.1 + (p.1 - prev.1) * ((180 - |prev.2|) / |p.2 - prev.2|),
          if prev.2 > 0 then (-179.999 : ℝ) else 179.999), p]) := by
  simp only [splitStep, hl, if_pos hc]

/-- The plain branch of the loop body (line 236). -/
theorem splitStep_no_cross {segs : List (List (ℝ × ℝ))} {cur : List (ℝ × ℝ)}
    {prev p : ℝ × ℝ} (hl : cur.getLast? = some prev) (hc : ¬ |p.2 - prev.2| > 180) :
    splitStep (segs, cur) p = (segs, cur ++ [p]) := by
  simp only [splitStep, hl, if_neg hc]

/-- Folding the loop body keeps `currentSegment` non-empty. -/
theorem foldl_splitStep_ne_nil :
    ∀ (rest : List (ℝ × ℝ)) (segs : List (List (ℝ × ℝ))) (cur : List (ℝ × ℝ)),
      cur ≠ [] → (rest.foldl splitStep (segs, cur)).2 ≠ []
  | [], _, _, h => h
  | x :: rest, segs, cur, h => by
    rw [List.foldl_cons]
    rcases hl : cur.getLast? with _ | prev
    · exact absurd (List.getLast?_eq_none_iff.mp hl) h
    · by_cases hc : |x.2 - prev.2| > 180
      · rw [splitStep_cross hl hc]
        exact foldl_splitStep_ne_nil rest _ _ (by simp)
      · rw [splitStep_no_cross hl hc]
        exact foldl_splitStep_ne_nil rest _ _ (by simp)

/-- If no remaining point jumps by more than `180°` from its predecessor, the
fold only appends to the current segment. -/
theorem foldl_splitStep_no_cross :
    ∀ (rest : List (ℝ × ℝ)) (segs : List (List (ℝ × ℝ))) (cur : List (ℝ × ℝ))
      (prev : ℝ × ℝ), cur.getLast? = some prev →
      List.Chain (fun a b : ℝ × ℝ => |b.2 - a.2| ≤ 180) prev rest →
      rest.foldl splitStep (segs, cur) = (segs, cur ++ rest)
  | [], segs, cur, prev, _, _ => by simp
  | x :: rest, segs, cur, prev, hl, hch => by
    rcases List.chain_cons.mp hch with ⟨hpx, hch'⟩
    rw [List.foldl_cons, splitStep_no_cross hl (not_lt.mpr hpx)]
    rw [foldl_splitStep_no_cross rest segs (cur ++ [x]) x (List.getLast?_concat _) hch']
    simp

/-- A sequence with no adjacent longitude jump above `180°` splits into the
single segment equal to the input. -/
theorem splitAtAntimeridian_no_cross {points : List (ℝ × ℝ)} (hne : points ≠ [])
    (hch : List.Chain' (fun a b : ℝ × ℝ => |b.2 - a.2| ≤ 180) points) :
    splitAtAntimeridian points = [points] := by
  rcases points with _ | ⟨p, rest⟩
  · exact absurd rfl hne
  · have hch' : List.Chain (fun a b : ℝ × ℝ => |b.2 - a.2| ≤ 180) p rest := hch
    unfold splitAtAntimeridian
    rw [List.foldl_cons, splitStep_nil,
      foldl_splitStep_no_cross rest [] [p] p rfl hch']
    simp

/-- `rejoinTail` of a non-trivial cons. -/
theorem rejoinTail_cons_of_ne_nil {t : List (List (ℝ × ℝ))} (s : List (ℝ × ℝ))
    (ht : t ≠ []) : rejoinTail (s :: t) = s.tail.dropLast ++ rejoinTail t := by
  rcases t with _ | ⟨a, t⟩
  · exact absurd rfl ht
  · rfl

/-- `rejoin` of a non-trivial cons. -/
theorem rejoin_cons_of_ne_nil {t : List (List (ℝ × ℝ))} (s : List (ℝ × ℝ))
    (ht : t ≠ []) : rejoin (s :: t) = s.dropLast ++ rejoinTail t := by
  rcases t with _ | ⟨a, t⟩
  · exact absurd rfl ht
  · rfl

/-- The tail of an append with a non-empty left part. -/
theorem tail_append_of_ne_nil {l : List (ℝ × ℝ)} (l₂ : List (ℝ × ℝ)) (h : l ≠ []) :
    (l ++ l₂).tail = l.tail ++ l₂ := by
  rcases l with _ | ⟨a, l⟩
  · exact absurd rfl h
  · rfl

/-- Appending a point to the final segment appends it to the reassembly
(`rejoinTail` version). -/
theorem rejoinTail_snoc_last :
    ∀ (ss : List (List (ℝ × ℝ))) (cur : List (ℝ × ℝ)) (x : ℝ × ℝ), cur ≠ [] →
      rejoinTail (ss ++ [cur ++ [x]]) = rejoinTail (ss ++ [cur]) ++ [x]
  | [], cur, x, h => by
    simp only [List.nil_append]
    show (cur ++ [x]).tail = cur.tail ++ [x]
    exact tail_append_of_ne_nil [x] h
  | s :: ss, cur, x, h => by
    rw [List.cons_append, List.cons_append,
      rejoinTail_cons_of_ne_nil s (by simp), rejoinTail_cons_of_ne_nil s (by simp),
      rejoinTail_snoc_last ss cur x h, List.append_assoc]

/-- Appending a point to the final segment appends it to the reassembly. -/
theorem rejoin_snoc_last (segs : List (List (ℝ × ℝ))) (cur : List (ℝ × ℝ))
    (x : ℝ × ℝ) (h : cur ≠ []) :
    rejoin (segs ++ [cur ++ [x]]) = rejoin (segs ++ [cur]) ++ [x] := by
  rcases segs with _ | ⟨s, ss⟩
  · rfl
  · rw [List.cons_append, List.cons_append,
      rejoin_cons_of_ne_nil s (by simp), rejoin_cons_of_ne_nil s (by simp),
      rejoinTail_snoc_last ss cur x h, List.append_assoc]

/-- A crossing closes the final segment with an inserted point and opens a new
two-point segment; the reassembly ignores both inserted points and keeps only
the surviving input point (`rejoinTail` version). -/
theorem rejoinTail_cross :
    ∀ (ss : List (List (ℝ × ℝ))) (cur : List (ℝ × ℝ)) (m mir p : ℝ × ℝ), cur ≠ [] →
      rejoinTail ((ss ++ [cur ++ [m]]) ++ [[mir, p]]) = rejoinTail (ss ++ [cur]) ++ [p]
  | [], cur, m, mir, p, h => by
    show (cur ++ [m]).tail.dropLast ++ [mir, p].tail = cur.tail ++ [p]
    rw [tail_append_of_ne_nil [m] h, List.dropLast_concat]
    rfl
  | s :: ss, cur, m, mir, p, h => by
    rw [List.cons_append, List.cons_append, List.cons_append,
      rejoinTail_cons_of_ne_nil s (by simp), rejoinTail_cons_of_ne_nil s (by simp),
      rejoinTail_cross ss cur m mir p h, List.append_assoc]

/-- A crossing step preserves the reassembly up to the surviving input point. -/
theorem rejoin_cross (segs : List (List (ℝ × ℝ))) (cur : List (ℝ × ℝ))
    (m mir p : ℝ × ℝ) (h : cur ≠ []) :
    rejoin ((segs ++ [cur ++ [m]]) ++ [[mir, p]]) = rejoin (segs ++ [cur]) ++ [p] := by
  rcases segs with _ | ⟨s, ss⟩
  · show (cur ++ [m]).dropLast ++ [mir, p].tail = cur ++ [p]
    rw [List.dropLast_concat]
    rfl
  · rw [List.cons_append, List.cons_append, List.cons_append,
      rejoin_cons_of_ne_nil s (by simp), rejoin_cons_of_ne_nil s (by simp),
      rejoinTail_cross ss cur m mir p h, List.append_assoc]

/-- Through the whole fold, reassembling the accumulated segments plus the
current segment recovers the processed prefix. -/
theorem foldl_splitStep_rejoin :
    ∀ (rest : List (ℝ × ℝ)) (segs : List (List (ℝ × ℝ))) (cur : List (ℝ × ℝ)),
      cur ≠ [] →
      rejoin ((rest.foldl splitStep (segs, cur)).1 ++ [(rest.foldl splitStep (segs, cur)).2]) =
        rejoin (segs ++ [cur]) ++ rest
  | [], segs, cur, _ => by simp
  | x :: rest, segs, cur, h => by
    rw [List.foldl_cons]
    rcases hl : cur.getLast? with _ | prev
    · exact absurd (List.getLast?_eq_none_iff.mp hl) h
    · by_cases hc : |x.2 - prev.2| > 180
      · rw [splitStep_cross hl hc]
        rw [foldl_splitStep_rejoin rest _ _ (by simp)]
        rw [rejoin_cross segs cur _ _ x h]
        simp
      · rw [splitStep_no_cross hl hc]
        rw [foldl_splitStep_rejoin rest _ _ (by simp)]
        rw [rejoin_snoc_last segs cur x h]
        simp

/-- Reassembling the splitter's output always recovers the input sequence. -/
theorem rejoin_splitAtAntimeridian (points : List (ℝ × ℝ)) :
    rejoin (splitAtAntimeridian points) = points := by
  rcases points with _ | ⟨p, rest⟩
  · rfl
  · unfold splitAtAntimeridian
    rw [List.foldl_cons, splitStep_nil]
    have hne := foldl_splitStep_ne_nil rest [] [p] (by simp)
    rw [if_pos (List.length_pos.mpr hne)]
    have := foldl_splitStep_rejoin rest [] [p] (by simp)
    simpa using this

/-- Every point of the splitter state is closed under the fold provided the
predicate holds for all incoming points and for every point on the `±179.999`
boundary. -/
theorem foldl_splitStep_all {Q : ℝ × ℝ → Prop}
    (hb : ∀ lat : ℝ, Q (lat, 179.999) ∧ Q (lat, -179.999)) :
    ∀ (rest : List (ℝ × ℝ)) (segs : List (List (ℝ × ℝ))) (cur : List (ℝ × ℝ)),
      (∀ s ∈ segs, ∀ p ∈ s, Q p) → (∀ p ∈ cur, Q p) → (∀ p ∈ rest, Q p) →
      (∀ s ∈ (rest.foldl splitStep (segs, cur)).1, ∀ p ∈ s, Q p) ∧
        (∀ p ∈ (rest.foldl splitStep (segs, cur)).2, Q p)
  | [], segs, cur, hs, hcur, _ => ⟨hs, hcur⟩
  | x :: rest, segs, cur, hs, hcur, hrest => by
    have hx : Q x := hrest x (by simp)
    have hrest' : ∀ p ∈ rest, Q p := fun p hp => hrest p (by simp [hp])
    rw [List.foldl_cons]
    rcases hl : cur.getLast? with _ | prev
    · rw [splitStep_none hl]
      exact foldl_splitStep_all hb rest segs [x] hs (by simpa using hx) hrest'
    · by_cases hc : |x.2 - prev.2| > 180
      · rw [splitStep_cross hl hc]
        refine foldl_splitStep_all hb rest _ _ ?_ ?_ hrest'
        · intro s hsmem p hp
          rcases List.mem_append.mp hsmem with h1 | h1
          · exact hs s h1 p hp
          · have hseq : s = cur ++ [(prev.1 + (x.1 - prev.1) * ((180 - |prev.2|) / |x.2 - prev.2|),
                if prev.2 > 0 then (179.999 : ℝ) else -179.999)] := by simpa using h1
            subst hseq
            rcases List.mem_append.mp hp with h2 | h2
            · exact hcur p h2
            · have hpe := List.mem_singleton.mp h2
              subst hpe
              by_cases hsgn : prev.2 > 0
              · simpa [hsgn] using (hb _).1
              · simpa [hsgn] using (hb _).2
        · intro p hp
          rcases List.mem_cons.mp hp with h2 | h2
          · subst h2
            by_cases hsgn : prev.2 > 0
            · simpa [hsgn] using (hb _).2
            · simpa [hsgn] using (hb _).1
          · have hpe : p = x := by simpa using h2
            subst hpe; exact hx
      · rw [splitStep_no_cross hl hc]
        refine foldl_splitStep_all hb rest _ _ hs ?_ hrest'
        intro p hp
        rcases List.mem_append.mp hp with h1 | h1
        · exact hcur p h1
        · have hpe := List.mem_singleton.mp h1
          subst hpe; exact hx

/-- Provenance: every point of every output segment is an input point or lies
on the `±179.999` boundary. -/
theorem splitAtAntimeridian_provenance (points : List (ℝ × ℝ)) :
    ∀ s ∈ splitAtAntimeridian points, ∀ p ∈ s,
      p ∈ points ∨ p.2 = 179.999 ∨ p.2 = -179.999 := by
  have h := foldl_splitStep_all
    (Q := fun p => p ∈ points ∨ p.2 = 179.999 ∨ p.2 = -179.999)
    (fun lat => ⟨Or.inr (Or.inl rfl), Or.inr (Or.inr rfl)⟩)
    points [] [] (by simp) (by simp) (fun p hp => Or.inl hp)
  intro s hsmem
  unfold splitAtAntimeridian at hsmem
  by_cases hlen : (points.foldl splitStep ([], [])).2.length > 0
  · rw [if_pos hlen] at hsmem
    rcases List.mem_append.mp hsmem with h1 | h1
    · exact h.1 s h1
    · have hseq := List.mem_singleton.mp h1
      subst hseq
      exact h.2
  · rw [if_neg hlen] at hsmem
    exact h.1 s hsmem

/-- Fold invariant for the no-jump property: when every input longitude lies in
`[-180, 180]`, all closed segments and the current segment are `180°`-chains and
the current segment ends in range. -/
theorem foldl_splitStep_chain :
    ∀ (rest : List (ℝ × ℝ)) (segs : List (List (ℝ × ℝ))) (cur : List (ℝ × ℝ)),
      (∀ s ∈ segs, List.Chain' (fun a b : ℝ × ℝ => |b.2 - a.2| ≤ 180) s) →
      List.Chain' (fun a b : ℝ × ℝ => |b.2 - a.2| ≤ 180) cur →
      (∀ prev, cur.getLast? = some prev → -180 ≤ prev.2 ∧ prev.2 ≤ 180) →
      (∀ p ∈ rest, -180 ≤ p.2 ∧ p.2 ≤ 180) →
      (∀ s ∈ (rest.foldl splitStep (segs, cur)).1,
          List.Chain' (fun a b : ℝ × ℝ => |b.2 - a.2| ≤ 180) s) ∧
        List.Chain' (fun a b : ℝ × ℝ => |b.2 - a.2| ≤ 180)
          (rest.foldl splitStep (segs, cur)).2
  | [], segs, cur, hs, hcur, _, _ => ⟨hs, hcur⟩
  | x :: rest, segs, cur, hs, hcur, hlast, hrest => by
    have hx : -180 ≤ x.2 ∧ x.2 ≤ 180 := hrest x (by simp)
    have hrest' : ∀ p ∈ rest, -180 ≤ p.2 ∧ p.2 ≤ 180 := fun p hp => hrest p (by simp [hp])
    rw [List.foldl_cons]
    rcases hl : cur.getLast? with _ | prev
    · rw [splitStep_none hl]
      refine foldl_splitStep_chain rest segs [x] hs (List.chain'_singleton x) ?_ hrest'
      intro q hq
      rw [List.getLast?_singleton] at hq
      obtain rfl : x = q := Option.mem_some_iff.mp hq
      exact hx
    · have hprev := hlast prev hl
      by_cases hc : |x.2 - prev.2| > 180
      · rw [splitStep_cross hl hc]
        set mid : ℝ × ℝ := (prev.1 + (x.1 - prev.1) * ((180 - |prev.2|) / |x.2 - prev.2|),
          if prev.2 > 0 then (179.999 : ℝ) else -179.999) with hmid
        set mir : ℝ × ℝ := (prev.1 + (x.1 - prev.1) * ((180 - |prev.2|) / |x.2 - prev.2|),
          if prev.2 > 0 then (-179.999 : ℝ) else 179.999) with hmir
        refine foldl_splitStep_chain rest _ _ ?_ ?_ ?_ hrest'
        · intro s hsmem
          rcases List.mem_append.mp hsmem with h1 | h1
          · exact hs s h1
          · have hseq : s = cur ++ [mid] := by simpa using h1
            subst hseq
            refine chain'_snoc_of hcur hl ?_
            show |mid.2 - prev.2| ≤ 180
            by_cases hsgn : prev.2 > 0
            · have hm : mid.2 = 179.999 := by rw [hmid]; simp [hsgn]
              rw [hm, abs_le]
              constructor <;> linarith [hprev.1, hprev.2]
            · have hm : mid.2 = -179.999 := by rw [hmid]; simp [hsgn]
              rw [hm, abs_le]
              constructor <;> linarith [hprev.1, hprev.2]
        · rw [List.chain'_cons]
          refine ⟨?_, List.chain'_singleton x⟩
          show |x.2 - mir.2| ≤ 180
          by_cases hsgn : prev.2 > 0
          · have hm : mir.2 = -179.999 := by rw [hmir]; simp [hsgn]
            rw [hm, abs_le]
            rcases lt_abs.mp hc with h1 | h1
            · constructor <;> linarith [hx.1, hx.2, hprev.1, hprev.2]
            · constructor <;> linarith [hx.1, hx.2, hprev.1, hprev.2]
          · have hm : mir.2 = 179.999 := by rw [hmir]; simp [hsgn]
            rw [hm, abs_le]
            rcases lt_abs.mp hc with h1 | h1
            · constructor <;> linarith [hx.1, hx.2, hprev.1, hprev.2]
            · constructor <;> linarith [hx.1, hx.2, hprev.1, hprev.2]
        · intro q hq
          rw [List.getLast?_cons_cons, List.getLast?_singleton] at hq
          obtain rfl : x = q := Option.mem_some_iff.mp hq
          exact hx
      · rw [splitStep_no_cross hl hc]
        refine foldl_splitStep_chain rest _ _ hs ?_ ?_ hrest'
        · exact chain'_snoc_of hcur hl (not_lt.mp hc)
        · intro q hq
          rw [List.getLast?_concat] at hq
          obtain rfl : x = q := Option.mem_some_iff.mp hq
          exact hx

/-! ### Claim theorems about the splitter -/

/-- C2: whenever the splitter detects an antimeridian crossing between the last
point of the current segment and the incoming point (raw longitude jump above
`180°`), it closes the current segment by appending a crossing point whose
longitude is `179.999` when the previous longitude is positive and `-179.999`
otherwise, and opens a new segment starting at the mirrored boundary point of
opposite sign followed by the incoming point. -/
theorem splitStep_crossing_inserts_boundary
    (segments : List (List (ℝ × ℝ))) (currentSegment : List (ℝ × ℝ))
    (prev p : ℝ × ℝ)
    (hl : currentSegment.getLast? = some prev)
    (hc : |p.2 - prev.2| > 180) :
    splitStep (segments, currentSegment) p =
      (segments ++ [currentSegment ++
          [(prev.1 + (p.1 - prev.1) * ((180 - |prev.2|) / |p.2 - prev.2|),
            if prev.2 > 0 then (179.999 : ℝ) else -179.999)]],
        [(prev.1 + (p.1 - prev.1) * ((180 - |prev.2|) / |p.2 - prev.2|),
            -(if prev.2 > 0 then (179.999 : ℝ) else -179.999)), p]) := by
  rw [splitStep_cross hl hc]
  by_cases hsgn : prev.2 > 0 <;> simp [hsgn]

/-- Witness for C2 at the concrete crossing `(0, 170) → (10, -170)`. -/
theorem splitStep_crossing_inserts_boundary_witness :
    splitStep ([], [((0 : ℝ), 170)]) (10, -170) =
      ([[((0 : ℝ), 170),
          ((0 : ℝ) + (10 - 0) * ((180 - |(170 : ℝ)|) / |(-170 : ℝ) - 170|),
            if (170 : ℝ) > 0 then (179.999 : ℝ) else -179.999)]],
        [(((0 : ℝ) + (10 - 0) * ((180 - |(170 : ℝ)|) / |(-170 : ℝ) - 170|)),
            -(if (170 : ℝ) > 0 then (179.999 : ℝ) else -179.999)), (10, -170)]) :=
  splitStep_crossing_inserts_boundary [] [((0 : ℝ), 170)] ((0 : ℝ), 170) (10, -170)
    (by simp) (by norm_num)

/-- C3 (amended): for inputs whose longitudes all lie in `[-180, 180]`,
reassembling the splitter's segments (ignoring inserted boundary points)
recovers the input, no output segment has an adjacent longitude jump above
`180°`, and an input with no such jump yields the single segment equal to the
input.  (The reassembly and single-segment parts hold for all inputs.) -/
theorem splitAtAntimeridian_spec (points : List (ℝ × ℝ))
    (hrange : ∀ p ∈ points, -180 ≤ p.2 ∧ p.2 ≤ 180) :
    rejoin (splitAtAntimeridian points) = points ∧
      (∀ s ∈ splitAtAntimeridian points,
        List.Chain' (fun a b : ℝ × ℝ => |b.2 - a.2| ≤ 180) s) ∧
      (points ≠ [] → List.Chain' (fun a b : ℝ × ℝ => |b.2 - a.2| ≤ 180) points →
        splitAtAntimeridian points = [points]) := by
  refine ⟨rejoin_splitAtAntimeridian points, ?_,
    fun hne hch => splitAtAntimeridian_no_cross hne hch⟩
  have h := foldl_splitStep_chain points [] [] (by simp) List.chain'_nil (by simp) hrange
  intro s hsmem
  unfold splitAtAntimeridian at hsmem
  by_cases hlen : (points.foldl splitStep ([], [])).2.length > 0
  · rw [if_pos hlen] at hsmem
    rcases List.mem_append.mp hsmem with h1 | h1
    · exact h.1 s h1
    · have hseq := List.mem_singleton.mp h1
      subst hseq
      exact h.2
  · rw [if_neg hlen] at hsmem
    exact h.1 s hsmem

/-- Witness for C3 (amended) on the in-range input `[(0, 10), (0, 20)]`. -/
theorem splitAtAntimeridian_spec_witness :
    rejoin (splitAtAntimeridian [((0 : ℝ), 10), (0, 20)]) = [((0 : ℝ), 10), (0, 20)] ∧
      (∀ s ∈ splitAtAntimeridian [((0 : ℝ), 10), (0, 20)],
        List.Chain' (fun a b : ℝ × ℝ => |b.2 - a.2| ≤ 180) s) ∧
      ([((0 : ℝ), 10), (0, 20)] ≠ ([] : List (ℝ × ℝ)) →
        List.Chain' (fun a b : ℝ × ℝ => |b.2 - a.2| ≤ 180) [((0 : ℝ), 10), (0, 20)] →
        splitAtAntimeridian [((0 : ℝ), 10), (0, 20)] = [[((0 : ℝ), 10), (0, 20)]]) :=
  splitAtAntimeridian_spec [((0 : ℝ), 10), (0, 20)]
    (by
      intro p hp
      rcases List.mem_cons.mp hp with rfl | hp'
      · norm_num
      · have : p = ((0 : ℝ), 20) := by simpa using hp'
        subst this
        norm_num)

/-- C3 counterexample: on the out-of-range input `[(0, 10), (0, 200)]` the
splitter fires (raw jump `190 > 180`) and the opened segment
`[(0, -179.999), (0, 200)]` itself contains an adjacent jump of `379.999°`:
the no-jump property fails for arbitrary input sequences. -/
theorem splitAtAntimeridian_jump_counterexample :
    splitAtAntimeridian [((0 : ℝ), 10), (0, 200)] =
      [[((0 : ℝ), 10), (0, 179.999)], [((0 : ℝ), -179.999), (0, 200)]] ∧
      ¬ (∀ s ∈ splitAtAntimeridian [((0 : ℝ), 10), (0, 200)],
        List.Chain' (fun a b : ℝ × ℝ => |b.2 - a.2| ≤ 180) s) := by
  have heval : splitAtAntimeridian [((0 : ℝ), 10), (0, 200)] =
      [[((0 : ℝ), 10), (0, 179.999)], [((0 : ℝ), -179.999), (0, 200)]] := by
    unfold splitAtAntimeridian
    rw [List.foldl_cons, splitStep_nil, List.foldl_cons,
      splitStep_cross (show ([((0 : ℝ), 10)] : List (ℝ × ℝ)).getLast? =
        some ((0 : ℝ), 10) by simp) (by norm_num)]
    rw [if_pos (by norm_num : (10 : ℝ) > 0)]
    norm_num
  refine ⟨heval, ?_⟩
  intro hall
  have := hall [((0 : ℝ), -179.999), (0, 200)] (by rw [heval]; simp)
  have hrel := (List.chain'_cons.mp this).1
  rw [show ((0 : ℝ), (200 : ℝ)).2 - ((0 : ℝ), (-179.999 : ℝ)).2 = 379.999 by norm_num] at hrel
  rw [abs_le] at hrel
  norm_num at hrel

/-- C10: the dashboard splitter is total on degenerate inputs: the empty list
yields no segments and a one-point list yields the single one-point segment. -/
theorem splitAtAntimeridian_short_inputs (lat lon : ℝ) :
    splitAtAntimeridian ([] : List (ℝ × ℝ)) = [] ∧
      splitAtAntimeridian [(lat, lon)] = [[(lat, lon)]] := by
  constructor
  · rfl
  · rfl

/-! ### Replication lemmas and claims C5, C9 -/

/-- Each segment produces one unit per offset: five per segment in total. -/
theorem replicateSegmentsFrom_length :
    ∀ (k : ℕ) (segs : List (List (ℝ × ℝ))),
      (replicateSegmentsFrom k segs).length = 5 * segs.length
  | _, [] => rfl
  | k, s :: rest => by
    simp only [replicateSegmentsFrom, List.length_append, List.length_map, List.length_cons]
    rw [replicateSegmentsFrom_length (k + 1) rest]
    simp [offsets]
    ring

/-- Replication starting past the first segment yields no interactive unit. -/
theorem replicateSegmentsFrom_countP_ne_zero :
    ∀ (k : ℕ), k ≠ 0 → ∀ (segs : List (List (ℝ × ℝ))),
      (replicateSegmentsFrom k segs).countP (fun u => u.interactive) = 0
  | _, _, [] => rfl
  | k, hk, s :: rest => by
    simp only [replicateSegmentsFrom, List.countP_append]
    rw [replicateSegmentsFrom_countP_ne_zero (k + 1) (Nat.succ_ne_zero k) rest]
    rw [List.countP_map]
    have hk0 : (k == 0) = false := by simpa using hk
    have hcount : (offsets.countP fun (off : ℤ) => off == 0 && k == 0) = 0 := by
      simp [hk0]
    simpa using hcount

/-- Replication from index `0` of a non-empty segment list yields exactly one
interactive unit (the offset-`0` copy of the first segment). -/
theorem replicateSegmentsFrom_zero_countP (s : List (ℝ × ℝ)) (rest : List (List (ℝ × ℝ))) :
    (replicateSegmentsFrom 0 (s :: rest)).countP (fun u => u.interactive) = 1 := by
  simp only [replicateSegmentsFrom, List.countP_append]
  rw [replicateSegmentsFrom_countP_ne_zero 1 one_ne_zero rest]
  rw [List.countP_map]
  have : (offsets.countP fun off => off == 0 && (0 : ℕ) == 0) = 1 := by decide
  simpa using this

/-- Every produced line unit is an offset copy of one of the segments. -/
theorem replicateSegmentsFrom_shape :
    ∀ (k : ℕ) (segs : List (List (ℝ × ℝ))),
      ∀ u ∈ replicateSegmentsFrom k segs, ∃ seg ∈ segs, ∃ off ∈ offsets,
        u.pts = seg.map fun point => (point.1, point.2 + (off : ℝ))
  | _, [], u, hu => absurd hu (by simp [replicateSegmentsFrom])
  | k, s :: rest, u, hu => by
    rcases List.mem_append.mp hu with h1 | h1
    · rcases List.mem_map.mp h1 with ⟨off, hoff, rfl⟩
      exact ⟨s, by simp, off, hoff, rfl⟩
    · rcases replicateSegmentsFrom_shape (k + 1) rest u h1 with ⟨seg, hseg, off, hoff, hpts⟩
      exact ⟨seg, by simp [hseg], off, hoff, hpts⟩

/-- C5: replication over the offsets `{-720, -360, 0, 360, 720}` produces
exactly five copies of each atomic unit (five line units per segment, five
markers per point), each copy shifting longitudes by its offset and leaving
latitudes untouched, and exactly one produced unit — the offset-`0` copy of the
first segment, resp. the offset-`0` marker — is interactive. -/
theorem replication_five_copies_one_primary
    (segments : List (List (ℝ × ℝ))) (latlng : ℝ × ℝ) (hne : segments ≠ []) :
    (replicateSegments segments).length = 5 * segments.length ∧
      (replicateSegments segments).countP (fun u => u.interactive) = 1 ∧
      (∀ u ∈ replicateSegments segments, ∃ seg ∈ segments, ∃ off ∈ offsets,
        u.pts = seg.map fun point => (point.1, point.2 + (off : ℝ))) ∧
      (createInfiniteMarker latlng).length = 5 ∧
      (createInfiniteMarker latlng).countP (fun u => u.interactive) = 1 ∧
      (∀ u ∈ createInfiniteMarker latlng, ∃ off ∈ offsets,
        u.pos = (latlng.1, latlng.2 + (off : ℝ))) := by
  refine ⟨replicateSegmentsFrom_length 0 segments, ?_,
    replicateSegmentsFrom_shape 0 segments, ?_, ?_, ?_⟩
  · rcases segments with _ | ⟨s, rest⟩
    · exact absurd rfl hne
    · exact replicateSegmentsFrom_zero_countP s rest
  · simp [createInfiniteMarker, offsets]
  · rw [createInfiniteMarker, List.countP_map]
    show (offsets.countP fun (offset : ℤ) => offset == 0) = 1
    decide
  · intro u hu
    rcases List.mem_map.mp hu with ⟨off, hoff, rfl⟩
    exact ⟨off, hoff, rfl⟩

/-- Witness for C5 on the one-segment geometry `[[(0, 0)]]` and marker `(1, 2)`. -/
theorem replication_five_copies_one_primary_witness :
    (replicateSegments [[((0 : ℝ), 0)]]).length = 5 * ([[((0 : ℝ), 0)]] : List (List (ℝ × ℝ))).length ∧
      (replicateSegments [[((0 : ℝ), 0)]]).countP (fun u => u.interactive) = 1 ∧
      (∀ u ∈ replicateSegments [[((0 : ℝ), 0)]], ∃ seg ∈ ([[((0 : ℝ), 0)]] : List (List (ℝ × ℝ))),
        ∃ off ∈ offsets, u.pts = seg.map fun point => (point.1, point.2 + (off : ℝ))) ∧
      (createInfiniteMarker ((1 : ℝ), 2)).length = 5 ∧
      (createInfiniteMarker ((1 : ℝ), 2)).countP (fun u => u.interactive) = 1 ∧
      (∀ u ∈ createInfiniteMarker ((1 : ℝ), 2), ∃ off ∈ offsets,
        u.pos = ((((1 : ℝ), 2) : ℝ × ℝ).1, (((1 : ℝ), 2) : ℝ × ℝ).2 + (off : ℝ))) :=
  replication_five_copies_one_primary [[((0 : ℝ), 0)]] ((1 : ℝ), 2) (by simp)

/-- The interpolator always yields at least two points (both branches). -/
theorem calculateGeodesicPoints_ne_nil (lat1 lon1 lat2 lon2 : ℝ) (n : ℕ) :
    calculateGeodesicPoints lat1 lon1 lat2 lon2 n ≠ [] := by
  unfold calculateGeodesicPoints
  by_cases h : dashΔσ lat1 lon1 lat2 lon2 < 0.001
  · rw [if_pos h]; simp
  · rw [if_neg h]; simp

/-- The splitter never returns an empty segment list for non-empty input. -/
theorem splitAtAntimeridian_ne_nil {points : List (ℝ × ℝ)} (h : points ≠ []) :
    splitAtAntimeridian points ≠ [] := by
  rcases points with _ | ⟨p, rest⟩
  · exact absurd rfl h
  · unfold splitAtAntimeridian
    rw [List.foldl_cons, splitStep_nil]
    have hne := foldl_splitStep_ne_nil rest [] [p] (by simp)
    rw [if_pos (List.length_pos.mpr hne)]
    simp

/-- C9: the geometry build performs no coordinate validation: for the
out-of-range origin `(1000, 500)` (latitude and longitude both far outside
range) it still produces the full non-empty set of world-copy polylines — the
function returns drawable geometry unconditionally and has no rejection path
(no `InvalidCoordinate` condition exists anywhere in the code). -/
theorem createInfiniteGeodesicLine_no_validation :
    5 ≤ (createInfiniteGeodesicLine ((1000 : ℝ), 500) (0, 0)).length := by
  show 5 ≤ (replicateSegmentsFrom 0 (splitAtAntimeridian
    (calculateGeodesicPoints 1000 500 0 0 100))).length
  rw [replicateSegmentsFrom_length 0]
  have h1 : splitAtAntimeridian (calculateGeodesicPoints 1000 500 0 0 100) ≠ [] :=
    splitAtAntimeridian_ne_nil (calculateGeodesicPoints_ne_nil 1000 500 0 0 100)
  have h2 : 1 ≤ (splitAtAntimeridian (calculateGeodesicPoints 1000 500 0 0 100)).length :=
    List.length_pos.mpr h1
  omega

/-! ### The spherical law-of-cosines argument is always in `[-1, 1]` -/

/-- Upper bound, from `2·(1 - D) = (sin a - sin b)² + (cos a - cos b·cos t)² + (cos b·sin t)²`. -/
theorem cos_rule_arg_le_one (a b t : ℝ) :
    sin a * sin b + cos a * cos b * cos t ≤ 1 := by
  nlinarith [sq_nonneg (sin a - sin b), sq_nonneg (cos a - cos b * cos t),
    sq_nonneg (cos b * sin t), sin_sq_add_cos_sq a, sin_sq_add_cos_sq b, sin_sq_add_cos_sq t]

/-- Lower bound, from `2·(1 + D) = (sin a + sin b)² + (cos a + cos b·cos t)² + (cos b·sin t)²`. -/
theorem neg_one_le_cos_rule_arg (a b t : ℝ) :
    -1 ≤ sin a * sin b + cos a * cos b * cos t := by
  nlinarith [sq_nonneg (sin a + sin b), sq_nonneg (cos a + cos b * cos t),
    sq_nonneg (cos b * sin t), sin_sq_add_cos_sq a, sin_sq_add_cos_sq b, sin_sq_add_cos_sq t]

/-- The unclamped class-side `acos` argument lies in `[-1, 1]` for all real
inputs: over the exact reals `Math.acos` can never see a domain error here. -/
theorem classCosArg_mem_Icc (lat1 lon1 lat2 lon2 : ℝ) :
    classCosArg lat1 lon1 lat2 lon2 ∈ Set.Icc (-1 : ℝ) 1 :=
  ⟨neg_one_le_cos_rule_arg _ _ _, cos_rule_arg_le_one _ _ _⟩

/-- The dashboard clamp is extensionally the identity: the raw law-of-cosines
expression already lies in `[-1, 1]`. -/
theorem dashCosArg_eq_raw (lat1 lon1 lat2 lon2 : ℝ) :
    dashCosArg lat1 lon1 lat2 lon2 = sin (rad lat1) * sin (rad lat2) +
      cos (rad lat1) * cos (rad lat2) * cos (dashΔlam lon1 lon2) := by
  unfold dashCosArg
  rw [min_eq_right (cos_rule_arg_le_one _ _ _), max_eq_right (neg_one_le_cos_rule_arg _ _ _)]

/-! ### Degenerate-case lemmas -/

/-- The degenerate guard of `calculateGreatCircle` (lines 24-26). -/
theorem calculateGreatCircle_of_degenerate {lat1 lon1 lat2 lon2 : ℝ} (n : ℕ)
    (h : classΔσ lat1 lon1 lat2 lon2 < 0.001) :
    calculateGreatCircle lat1 lon1 lat2 lon2 n = [(lat1, lon1), (lat2, lon2)] := by
  unfold calculateGreatCircle
  rw [if_pos h]

/-- Coincident endpoints give central angle `0` in the class implementation. -/
theorem classΔσ_self (lat lon : ℝ) : classΔσ lat lon lat lon = 0 := by
  unfold classΔσ
  have hD : classCosArg lat lon lat lon = 1 := by
    unfold classCosArg
    rw [sub_self, Real.cos_zero]
    linear_combination sin_sq_add_cos_sq (rad lat)
  rw [hD, Real.arccos_one]

/-- `calculateGreatCircle(p, p, n)` collapses to the two-point sequence. -/
theorem calculateGreatCircle_self (lat lon : ℝ) (n : ℕ) :
    calculateGreatCircle lat lon lat lon n = [(lat, lon), (lat, lon)] :=
  calculateGreatCircle_of_degenerate n (by rw [classΔσ_self]; norm_num)

/-- No unwrap happens for coincident longitudes. -/
theorem unwrapLam2_self (lon : ℝ) : unwrapLam2 lon lon = rad lon := by
  simp only [unwrapLam2]
  rw [sub_self, zero_mul, zero_div, abs_zero, if_neg (by norm_num : ¬ (0 : ℝ) > 180)]

/-- Coincident endpoints give central angle `0` in the dashboard implementation. -/
theorem dashΔσ_self (lat lon : ℝ) : dashΔσ lat lon lat lon = 0 := by
  unfold dashΔσ
  have hD : dashCosArg lat lon lat lon = 1 := by
    rw [dashCosArg_eq_raw]
    unfold dashΔlam
    rw [unwrapLam2_self, sub_self, Real.cos_zero]
    linear_combination sin_sq_add_cos_sq (rad lat)
  rw [hD, Real.arccos_one]

/-- `calculateGeodesicPoints(p, p, n)` collapses to the two-point sequence. -/
theorem calculateGeodesicPoints_self (lat lon : ℝ) (n : ℕ) :
    calculateGeodesicPoints lat lon lat lon n = [(lat, lon), (lat, lon)] := by
  unfold calculateGeodesicPoints
  rw [if_pos (by rw [dashΔσ_self]; norm_num)]

/-- C7: if the computed central angle is below `0.001` radians the interpolator
returns exactly the two-point sequence `[p1, p2]` (the `isNaN` disjunct of the
guard is vacuous over the exact reals, where the `acos` argument provably lies
in `[-1, 1]`); in particular interpolating any point with itself yields
`[p, p]` in both implementations, for every resolution. -/
theorem interpolate_degenerate_two_points :
    (∀ lat1 lon1 lat2 lon2 : ℝ, ∀ n : ℕ,
        classΔσ lat1 lon1 lat2 lon2 < 0.001 →
        calculateGreatCircle lat1 lon1 lat2 lon2 n = [(lat1, lon1), (lat2, lon2)]) ∧
      (∀ lat lon : ℝ, ∀ n : ℕ,
        calculateGreatCircle lat lon lat lon n = [(lat, lon), (lat, lon)]) ∧
      (∀ lat lon : ℝ, ∀ n : ℕ,
        calculateGeodesicPoints lat lon lat lon n = [(lat, lon), (lat, lon)]) :=
  ⟨fun _ _ _ _ n h => calculateGreatCircle_of_degenerate n h,
    calculateGreatCircle_self, calculateGeodesicPoints_self⟩

/-! ### Endpoint recovery for the class interpolator (claim C6) -/

/-- Converting back from radians to degrees inverts `rad`. -/
theorem rad_cancel (x : ℝ) : rad x * 180 / π = x := by
  unfold rad
  field_simp

/-- Latitudes strictly inside `(-90, 90)` land strictly inside `(-π/2, π/2)`. -/
theorem rad_mem_Ioo {x : ℝ} (h1 : -90 < x) (h2 : x < 90) :
    rad x ∈ Set.Ioo (-(π / 2)) (π / 2) := by
  unfold rad
  constructor
  · nlinarith [Real.pi_pos]
  · nlinarith [Real.pi_pos]

/-- Longitudes in `(-180, 180]` land in the principal range `(-π, π]`. -/
theorem rad_mem_Ioc {x : ℝ} (h1 : -180 < x) (h2 : x ≤ 180) :
    rad x ∈ Set.Ioc (-π) π := by
  unfold rad
  constructor
  · nlinarith [Real.pi_pos]
  · nlinarith [Real.pi_pos]

/-- The principal latitude range sits inside the principal longitude range. -/
theorem Ioo_half_mem_Ioc {x : ℝ} (h : x ∈ Set.Ioo (-(π / 2)) (π / 2)) :
    x ∈ Set.Ioc (-π) π := by
  rcases h with ⟨h1, h2⟩
  constructor
  · linarith [Real.pi_pos]
  · linarith [Real.pi_pos]

/-- Longitudes already in `(-180, 180]` pass through the normalisation loops. -/
theorem normalizeLon_eq_self {x : ℝ} (h1 : -180 < x) (h2 : x ≤ 180) :
    normalizeLon x = x := by
  have hd : wrapDown x = x := by
    unfold wrapDown
    rw [if_neg (not_lt.mpr h2)]
  unfold normalizeLon
  rw [hd]
  unfold wrapUp
  rw [if_neg (not_lt.mpr h1.le)]

/-- The head of a mapped `range (n+1)` is the image of `0`. -/
theorem head?_map_range {α : Type} (f : ℕ → α) (n : ℕ) :
    ((List.range (n + 1)).map f).head? = some (f 0) := by
  rw [List.range_succ_eq_map]
  rfl

/-- The last element of a mapped `range (n+1)` is the image of `n`. -/
theorem getLast?_map_range {α : Type} (f : ℕ → α) (n : ℕ) :
    ((List.range (n + 1)).map f).getLast? = some (f n) := by
  rw [List.range_succ, List.map_append]
  rw [show List.map f [n] = [f n] from rfl]
  exact List.getLast?_concat _

/-- The first loop iteration of `calculateGreatCircle` reproduces `p1`. -/
theorem classPoint_zero (lat1 lon1 lat2 lon2 : ℝ) (n : ℕ)
    (hsin : sin (classΔσ lat1 lon1 lat2 lon2) ≠ 0)
    (hc1 : 0 < cos (rad lat1))
    (hφ1 : rad lat1 ∈ Set.Ioc (-π) π)
    (hlam1 : rad lon1 ∈ Set.Ioc (-π) π)
    (hlon1a : -180 < lon1) (hlon1b : lon1 ≤ 180) :
    classPoint lat1 lon1 lat2 lon2 n 0 = (lat1, lon1) := by
  simp only [classPoint, Nat.cast_zero, zero_div, sub_zero, one_mul, zero_mul,
    Real.sin_zero, add_zero, div_self hsin]
  have hxy : cos (rad lat1) * cos (rad lon1) * (cos (rad lat1) * cos (rad lon1)) +
      cos (rad lat1) * sin (rad lon1) * (cos (rad lat1) * sin (rad lon1)) =
      cos (rad lat1) ^ 2 := by
    linear_combination (cos (rad lat1)) ^ 2 * sin_sq_add_cos_sq (rad lon1)
  rw [hxy, Real.sqrt_sq hc1.le, atan2_sin_cos hφ1, atan2_mul_left hc1,
    atan2_sin_cos hlam1, rad_cancel, rad_cancel, normalizeLon_eq_self hlon1a hlon1b]

/-- The final loop iteration of `calculateGreatCircle` reproduces `p2`. -/
theorem classPoint_last (lat1 lon1 lat2 lon2 : ℝ) (n : ℕ) (hn : 1 ≤ n)
    (hsin : sin (classΔσ lat1 lon1 lat2 lon2) ≠ 0)
    (hc2 : 0 < cos (rad lat2))
    (hφ2 : rad lat2 ∈ Set.Ioc (-π) π)
    (hlam2 : rad lon2 ∈ Set.Ioc (-π) π)
    (hlon2a : -180 < lon2) (hlon2b : lon2 ≤ 180) :
    classPoint lat1 lon1 lat2 lon2 n n = (lat2, lon2) := by
  have hfrac : (n : ℝ) / (n : ℝ) = 1 := div_self (Nat.cast_ne_zero.mpr (by omega))
  simp only [classPoint, hfrac, sub_self, zero_mul, Real.sin_zero, zero_div, one_mul,
    zero_add, div_self hsin]
  have hxy : cos (rad lat2) * cos (rad lon2) * (cos (rad lat2) * cos (rad lon2)) +
      cos (rad lat2) * sin (rad lon2) * (cos (rad lat2) * sin (rad lon2)) =
      cos (rad lat2) ^ 2 := by
    linear_combination (cos (rad lat2)) ^ 2 * sin_sq_add_cos_sq (rad lon2)
  rw [hxy, Real.sqrt_sq hc2.le, atan2_sin_cos hφ2, atan2_mul_left hc2,
    atan2_sin_cos hlam2, rad_cancel, rad_cancel, normalizeLon_eq_self hlon2a hlon2b]

/-- C6 (amended): for valid endpoints (latitudes strictly inside `(-90, 90)`,
longitudes in `(-180, 180]`), a non-degenerate central angle
(`0.001 ≤ Δσ`, excluding the coincident fallback) that is not antipodal
(`-1 < D`, so `sin Δσ ≠ 0`), and any resolution `n ≥ 1`,
`calculateGreatCircle` returns exactly `n + 1` points whose first point is `p1`
and whose last point is `p2` (exactly, in exact-real arithmetic). -/
theorem calculateGreatCircle_count_and_endpoints
    (lat1 lon1 lat2 lon2 : ℝ) (n : ℕ) (hn : 1 ≤ n)
    (hlat1a : -90 < lat1) (hlat1b : lat1 < 90)
    (hlat2a : -90 < lat2) (hlat2b : lat2 < 90)
    (hlon1a : -180 < lon1) (hlon1b : lon1 ≤ 180)
    (hlon2a : -180 < lon2) (hlon2b : lon2 ≤ 180)
    (hD : -1 < classCosArg lat1 lon1 lat2 lon2)
    (hσ : 0.001 ≤ classΔσ lat1 lon1 lat2 lon2) :
    (calculateGreatCircle lat1 lon1 lat2 lon2 n).length = n + 1 ∧
      (calculateGreatCircle lat1 lon1 lat2 lon2 n).head? = some (lat1, lon1) ∧
      (calculateGreatCircle lat1 lon1 lat2 lon2 n).getLast? = some (lat2, lon2) := by
  have hnd : ¬ classΔσ lat1 lon1 lat2 lon2 < 0.001 := not_lt.mpr hσ
  have hlt : classΔσ lat1 lon1 lat2 lon2 < π := by
    have hne : classΔσ lat1 lon1 lat2 lon2 ≠ π := by
      unfold classΔσ
      rw [Ne, Real.arccos_eq_pi]
      exact not_le.mpr hD
    exact lt_of_le_of_ne (Real.arccos_le_pi _) hne
  have hpos : 0 < classΔσ lat1 lon1 lat2 lon2 := lt_of_lt_of_le (by norm_num) hσ
  have hsin : sin (classΔσ lat1 lon1 lat2 lon2) ≠ 0 :=
    ne_of_gt (Real.sin_pos_of_pos_of_lt_pi hpos hlt)
  have hc1 : 0 < cos (rad lat1) := Real.cos_pos_of_mem_Ioo (rad_mem_Ioo hlat1a hlat1b)
  have hc2 : 0 < cos (rad lat2) := Real.cos_pos_of_mem_Ioo (rad_mem_Ioo hlat2a hlat2b)
  have hmain : calculateGreatCircle lat1 lon1 lat2 lon2 n =
      (List.range (n + 1)).map (classPoint lat1 lon1 lat2 lon2 n) := by
    unfold calculateGreatCircle
    rw [if_neg hnd]
  refine ⟨?_, ?_, ?_⟩
  · rw [hmain]
    simp
  · rw [hmain, head?_map_range]
    exact congrArg some (classPoint_zero lat1 lon1 lat2 lon2 n hsin hc1
      (Ioo_half_mem_Ioc (rad_mem_Ioo hlat1a hlat1b)) (rad_mem_Ioc hlon1a hlon1b)
      hlon1a hlon1b)
  · rw [hmain, getLast?_map_range]
    exact congrArg some (classPoint_last lat1 lon1 lat2 lon2 n hn hsin hc2
      (Ioo_half_mem_Ioc (rad_mem_Ioo hlat2a hlat2b)) (rad_mem_Ioc hlon2a hlon2b)
      hlon2a hlon2b)

/-- C6 counterexample: at the coincident (hence valid) endpoints
`(10, 10) → (10, 10)` with resolution `30`, the interpolator takes the
degenerate branch and returns `2` points, not `30 + 1`: the count property
fails without a non-degeneracy hypothesis. -/
theorem calculateGreatCircle_degenerate_count :
    calculateGreatCircle 10 10 10 10 30 = [((10 : ℝ), 10), (10, 10)] ∧
      (calculateGreatCircle 10 10 10 10 30).length ≠ 30 + 1 := by
  have h := calculateGreatCircle_self (10 : ℝ) 10 30
  exact ⟨h, by rw [h]; norm_num⟩

/-- Witness for C6 (amended) at `(0, 0) → (0, 90)` with resolution `1`. -/
theorem calculateGreatCircle_count_and_endpoints_witness :
    (calculateGreatCircle 0 0 0 90 1).length = 1 + 1 ∧
      (calculateGreatCircle 0 0 0 90 1).head? = some ((0 : ℝ), 0) ∧
      (calculateGreatCircle 0 0 0 90 1).getLast? = some ((0 : ℝ), 90) := by
  have hD : classCosArg 0 0 0 90 = 0 := by
    unfold classCosArg
    have h1 : rad 90 - rad 0 = π / 2 := by unfold rad; ring
    have h0 : rad 0 = 0 := by unfold rad; ring
    rw [h1, Real.cos_pi_div_two, h0, Real.sin_zero]
    ring
  have hσ : classΔσ 0 0 0 90 = π / 2 := by
    unfold classΔσ
    rw [hD, Real.arccos_zero]
  exact calculateGreatCircle_count_and_endpoints 0 0 0 90 1 le_rfl
    (by norm_num) (by norm_num) (by norm_num) (by norm_num)
    (by norm_num) (by norm_num) (by norm_num) (by norm_num)
    (by rw [hD]; norm_num)
    (by rw [hσ]; linarith [Real.pi_gt_three])

/-! ### The Tokyo → Los Angeles scenario (claims C1 and C4)

Origin `(35.7, 139.7)`, destination `(34.0, -118.2)`: the raw longitude
difference is `-257.9`, so the dashboard unwraps `λ2` eastwards by `+2π` and
interpolates towards longitude `241.8 = -118.2 + 360`.  The resulting
longitudes increase continuously from `139.7`, never jumping by more than
`180°`, so the splitter returns one single segment and no `±179.999` crossing
point is ever inserted. -/

/-- `atan2` is positive on the open upper half plane. -/
theorem atan2_pos_of_pos {y x : ℝ} (hy : 0 < y) : 0 < atan2 y x := by
  rcases lt_or_eq_of_le (atan2_nonneg hy.le (x := x)) with h | h
  · exact h
  · exfalso
    rw [atan2_eq_arg] at h
    have h0 := Complex.arg_eq_zero_iff.mp h.symm
    exact hy.ne' h0.2

/-- `atan2` stays below `π` on the open upper half plane. -/
theorem atan2_lt_pi_of_pos {y x : ℝ} (hy : 0 < y) : atan2 y x < π := by
  have hle : atan2 y x ≤ π := (atan2_mem_Ioc y x).2
  rcases lt_or_eq_of_le hle with h | h
  · exact h
  · exfalso
    rw [atan2_eq_arg] at h
    have := Complex.arg_eq_pi_iff.mp h
    exact hy.ne' this.2

/-- A degree angle in `(0, 180)` has positive sine. -/
theorem sin_rad_pos {x : ℝ} (h0 : 0 < x) (h180 : x < 180) : 0 < sin (rad x) := by
  apply Real.sin_pos_of_pos_of_lt_pi
  · unfold rad; nlinarith [Real.pi_pos]
  · unfold rad; nlinarith [Real.pi_pos]

/-- A degree angle in `[0, 45)` has sine below `√2/2`. -/
theorem sin_rad_lt_sqrt_two_half {x : ℝ} (h0 : 0 ≤ x) (h45 : x < 45) :
    sin (rad x) < Real.sqrt 2 / 2 := by
  rw [← Real.sin_pi_div_four]
  apply Real.sin_lt_sin_of_lt_of_le_pi_div_two
  · unfold rad; nlinarith [Real.pi_pos]
  · linarith [Real.pi_pos]
  · unfold rad; nlinarith [Real.pi_pos]

/-- A degree angle in `(90, 270)` has negative cosine. -/
theorem cos_rad_neg {x : ℝ} (h90 : 90 < x) (h270 : x < 270) : cos (rad x) < 0 := by
  apply Real.cos_neg_of_pi_div_two_lt_of_lt
  · unfold rad; nlinarith [Real.pi_pos]
  · unfold rad; nlinarith [Real.pi_pos]

/-- The dashboard longitude formula stays within `180°` of the origin longitude. -/
theorem rad_add_atan2_window (lon1 y x : ℝ) :
    lon1 - 180 < (rad lon1 + atan2 y x) * 180 / π ∧
      (rad lon1 + atan2 y x) * 180 / π ≤ lon1 + 180 := by
  obtain ⟨h1, h2⟩ := atan2_mem_Ioc y x
  have hsplit : (rad lon1 + atan2 y x) * 180 / π = lon1 + atan2 y x * 180 / π := by
    unfold rad
    field_simp
  rw [hsplit]
  constructor
  · have : -180 < atan2 y x * 180 / π := by
      rw [lt_div_iff Real.pi_pos]
      nlinarith
    linarith
  · have : atan2 y x * 180 / π ≤ 180 := by
      rw [div_le_iff Real.pi_pos]
      nlinarith
    linarith

/-- The non-degenerate branch of `calculateGeodesicPoints`. -/
theorem calculateGeodesicPoints_of_not_degenerate (lat1 lon1 lat2 lon2 : ℝ) (n : ℕ)
    (h : ¬ dashΔσ lat1 lon1 lat2 lon2 < 0.001) :
    calculateGeodesicPoints lat1 lon1 lat2 lon2 n =
      (List.range (n + 1)).map (dashPoint lat1 lon1 lat2 lon2 n) := by
  unfold calculateGeodesicPoints
  rw [if_neg h]

/-- The clamped argument always lies in `[-1, 1]`. -/
theorem dashCosArg_mem_Icc (lat1 lon1 lat2 lon2 : ℝ) :
    dashCosArg lat1 lon1 lat2 lon2 ∈ Set.Icc (-1 : ℝ) 1 := by
  rw [dashCosArg_eq_raw]
  exact ⟨neg_one_le_cos_rule_arg _ _ _, cos_rule_arg_le_one _ _ _⟩

/-- Tokyo → LA: the unwrap branch fires (`|-257.9| > 180`, negative direction)
and the effective longitude difference is `102.1°` eastwards. -/
theorem tokyoLA_dashΔlam : dashΔlam 139.7 (-118.2) = rad 102.1 := by
  unfold dashΔlam
  have hu : unwrapLam2 139.7 (-118.2) = rad (-118.2) + 2 * π := by
    simp only [unwrapLam2]
    have hld : (rad (-118.2) - rad 139.7) * 180 / π = -257.9 := by
      unfold rad
      field_simp
      ring
    rw [hld]
    rw [if_pos (by rw [abs_of_neg (by norm_num : (-257.9 : ℝ) < 0)]; norm_num :
        |(-257.9 : ℝ)| > 180),
      if_neg (by norm_num : ¬ (-257.9 : ℝ) > 0)]
  rw [hu]
  unfold rad
  ring

/-- Tokyo → LA: the (unclamped) law-of-cosines argument is below `1/2`. -/
theorem tokyoLA_cosArg_lt_half : dashCosArg 35.7 139.7 34 (-118.2) < 1 / 2 := by
  rw [dashCosArg_eq_raw, tokyoLA_dashΔlam]
  have hs1 := sin_rad_pos (x := 35.7) (by norm_num) (by norm_num)
  have hs2 := sin_rad_pos (x := 34) (by norm_num) (by norm_num)
  have hs1' := sin_rad_lt_sqrt_two_half (x := 35.7) (by norm_num) (by norm_num)
  have hs2' := sin_rad_lt_sqrt_two_half (x := 34) (by norm_num) (by norm_num)
  have hc1 := Real.cos_pos_of_mem_Ioo (rad_mem_Ioo (x := 35.7) (by norm_num) (by norm_num))
  have hc2 := Real.cos_pos_of_mem_Ioo (rad_mem_Ioo (x := 34) (by norm_num) (by norm_num))
  have hcd := cos_rad_neg (x := 102.1) (by norm_num) (by norm_num)
  have hq : Real.sqrt 2 / 2 * (Real.sqrt 2 / 2) = 1 / 2 := by
    rw [div_mul_div_comm, Real.mul_self_sqrt (by norm_num : (0 : ℝ) ≤ 2)]
    norm_num
  have hprod : sin (rad 35.7) * sin (rad 34) < Real.sqrt 2 / 2 * (Real.sqrt 2 / 2) :=
    mul_lt_mul'' hs1' hs2' hs1.le hs2.le
  have hneg : cos (rad 35.7) * cos (rad 34) * cos (rad 102.1) < 0 :=
    mul_neg_of_pos_of_neg (mul_pos hc1 hc2) hcd
  linarith [hq ▸ hprod]

/-- Tokyo → LA: the argument stays strictly above `-1` (not antipodal). -/
theorem tokyoLA_neg_one_lt_cosArg : -1 < dashCosArg 35.7 139.7 34 (-118.2) := by
  rw [dashCosArg_eq_raw, tokyoLA_dashΔlam]
  have hs1 := sin_rad_pos (x := 35.7) (by norm_num) (by norm_num)
  have hs2 := sin_rad_pos (x := 34) (by norm_num) (by norm_num)
  have hc1 := Real.cos_pos_of_mem_Ioo (rad_mem_Ioo (x := 35.7) (by norm_num) (by norm_num))
  have hc2 := Real.cos_pos_of_mem_Ioo (rad_mem_Ioo (x := 34) (by norm_num) (by norm_num))
  have hle1 : cos (rad 35.7) * cos (rad 34) ≤ 1 :=
    mul_le_one (Real.cos_le_one _) hc2.le (Real.cos_le_one _)
  have hge : cos (rad 35.7) * cos (rad 34) * (-1) ≤
      cos (rad 35.7) * cos (rad 34) * cos (rad 102.1) :=
    mul_le_mul_of_nonneg_left (Real.neg_one_le_cos _) (mul_pos hc1 hc2).le
  nlinarith [mul_pos hs1 hs2]

/-- Tokyo → LA: the central angle exceeds `π/3`. -/
theorem tokyoLA_pi_div_three_lt_Δσ : π / 3 < dashΔσ 35.7 139.7 34 (-118.2) := by
  unfold dashΔσ
  have harc : Real.arccos (1 / 2) = π / 3 := by
    rw [← Real.cos_pi_div_three]
    exact Real.arccos_cos (by positivity) (by linarith [Real.pi_pos])
  rw [← harc]
  exact Real.strictAntiOn_arccos (dashCosArg_mem_Icc 35.7 139.7 34 (-118.2))
    (by constructor <;> norm_num) tokyoLA_cosArg_lt_half

/-- Tokyo → LA: the degenerate guard does not fire. -/
theorem tokyoLA_Δσ_ge : (0.001 : ℝ) ≤ dashΔσ 35.7 139.7 34 (-118.2) := by
  have := tokyoLA_pi_div_three_lt_Δσ
  linarith [Real.pi_gt_three]

/-- Tokyo → LA: the central angle stays below `π`. -/
theorem tokyoLA_Δσ_lt_pi : dashΔσ 35.7 139.7 34 (-118.2) < π := by
  have hne : dashΔσ 35.7 139.7 34 (-118.2) ≠ π := by
    unfold dashΔσ
    rw [Ne, Real.arccos_eq_pi]
    exact not_le.mpr tokyoLA_neg_one_lt_cosArg
  exact lt_of_le_of_ne (Real.arccos_le_pi _) hne

/-- Tokyo → LA: the initial bearing has positive sine (the path heads east). -/
theorem tokyoLA_sin_dashθ_pos : 0 < sin (dashθ 35.7 139.7 34 (-118.2)) := by
  unfold dashθ
  rw [tokyoLA_dashΔlam]
  have hy : 0 < sin (rad 102.1) * cos (rad 34) :=
    mul_pos (sin_rad_pos (by norm_num) (by norm_num))
      (Real.cos_pos_of_mem_Ioo (rad_mem_Ioo (by norm_num) (by norm_num)))
  exact Real.sin_pos_of_pos_of_lt_pi (atan2_pos_of_pos hy) (atan2_lt_pi_of_pos hy)

/-- A value in `[0, π)` added to the origin longitude (in radians) converts to
a degree longitude in `[lon1, lon1 + 180)`. -/
theorem rad_add_bounds {lon1 a : ℝ} (h0 : 0 ≤ a) (hpi : a < π) :
    lon1 ≤ (rad lon1 + a) * 180 / π ∧ (rad lon1 + a) * 180 / π < lon1 + 180 := by
  have hsplit : (rad lon1 + a) * 180 / π = lon1 + a * 180 / π := by
    unfold rad
    field_simp
  rw [hsplit]
  constructor
  · have : 0 ≤ a * 180 / π := div_nonneg (mul_nonneg h0 (by norm_num)) Real.pi_pos.le
    linarith
  · have : a * 180 / π < 180 := by
      rw [div_lt_iff Real.pi_pos]
      nlinarith
    linarith

/-- Tokyo → LA: the first interpolated point is the origin itself. -/
theorem tokyoLA_point_zero : dashPoint 35.7 139.7 34 (-118.2) 100 0 = (35.7, 139.7) := by
  simp only [dashPoint, Nat.cast_zero, zero_div, zero_mul, Real.sin_zero, Real.cos_zero,
    mul_one, mul_zero, add_zero]
  have hmem := rad_mem_Ioo (x := 35.7) (by norm_num) (by norm_num)
  have hsin : Real.arcsin (sin (rad 35.7)) = rad 35.7 :=
    Real.arcsin_sin hmem.1.le hmem.2.le
  rw [hsin]
  have hx0 : (1 : ℝ) - sin (rad 35.7) * sin (rad 35.7) = cos (rad 35.7) ^ 2 := by
    linear_combination (-1 : ℝ) * sin_sq_add_cos_sq (rad 35.7)
  rw [hx0, atan2_zero_of_nonneg (sq_nonneg _), add_zero, rad_cancel, rad_cancel]

/-- Tokyo → LA: the last interpolated point is the destination with its
longitude represented eastwards as `241.8 = -118.2 + 360`. -/
theorem tokyoLA_point_last : dashPoint 35.7 139.7 34 (-118.2) 100 100 = (34, 241.8) := by
  have hf : ((100 : ℕ) : ℝ) / ((100 : ℕ) : ℝ) = 1 := div_self (by norm_num)
  simp only [dashPoint, hf, one_mul]
  have hc1 := Real.cos_pos_of_mem_Ioo (rad_mem_Ioo (x := 35.7) (by norm_num) (by norm_num))
  have hc2 := Real.cos_pos_of_mem_Ioo (rad_mem_Ioo (x := 34) (by norm_num) (by norm_num))
  have hsd := sin_rad_pos (x := 102.1) (by norm_num) (by norm_num)
  have hYpos : 0 < sin (rad 102.1) * cos (rad 34) := mul_pos hsd hc2
  have hθ : dashθ 35.7 139.7 34 (-118.2) =
      atan2 (sin (rad 102.1) * cos (rad 34))
        (cos (rad 35.7) * sin (rad 34) - sin (rad 35.7) * cos (rad 34) * cos (rad 102.1)) := by
    unfold dashθ
    rw [tokyoLA_dashΔlam]
  have hcosΔσ : cos (dashΔσ 35.7 139.7 34 (-118.2)) = dashCosArg 35.7 139.7 34 (-118.2) := by
    unfold dashΔσ
    exact Real.cos_arccos (dashCosArg_mem_Icc _ _ _ _).1 (dashCosArg_mem_Icc _ _ _ _).2
  have hsinΔσ : sin (dashΔσ 35.7 139.7 34 (-118.2)) =
      Real.sqrt (1 - dashCosArg 35.7 139.7 34 (-118.2) ^ 2) := by
    unfold dashΔσ
    exact Real.sin_arccos _
  have hident : 1 - dashCosArg 35.7 139.7 34 (-118.2) ^ 2 =
      (cos (rad 35.7) * sin (rad 34) - sin (rad 35.7) * cos (rad 34) * cos (rad 102.1)) *
        (cos (rad 35.7) * sin (rad 34) - sin (rad 35.7) * cos (rad 34) * cos (rad 102.1)) +
      sin (rad 102.1) * cos (rad 34) * (sin (rad 102.1) * cos (rad 34)) := by
    rw [dashCosArg_eq_raw, tokyoLA_dashΔlam]
    linear_combination (-(sin (rad 34) ^ 2 + cos (rad 34) ^ 2 * cos (rad 102.1) ^ 2)) *
        sin_sq_add_cos_sq (rad 35.7) +
      (-1 : ℝ) * sin_sq_add_cos_sq (rad 34) +
      (-(cos (rad 34) ^ 2)) * sin_sq_add_cos_sq (rad 102.1)
  set X := cos (rad 35.7) * sin (rad 34) - sin (rad 35.7) * cos (rad 34) * cos (rad 102.1)
    with hXdef
  set Y := sin (rad 102.1) * cos (rad 34) with hYdef
  have hr2 : 0 < X * X + Y * Y := by nlinarith [sq_nonneg X, hYpos]
  have hr : 0 < Real.sqrt (X * X + Y * Y) := Real.sqrt_pos.mpr hr2
  have hcosθ : cos (dashθ 35.7 139.7 34 (-118.2)) = X / Real.sqrt (X * X + Y * Y) := by
    rw [hθ]
    exact cos_atan2 (by rintro ⟨-, hY0⟩; exact hYpos.ne' hY0)
  have hsinθ : sin (dashθ 35.7 139.7 34 (-118.2)) = Y / Real.sqrt (X * X + Y * Y) := by
    rw [hθ]
    exact sin_atan2 Y X
  have hsinΔσ' : sin (dashΔσ 35.7 139.7 34 (-118.2)) = Real.sqrt (X * X + Y * Y) := by
    rw [hsinΔσ, hident]
  have harg : sin (rad 35.7) * dashCosArg 35.7 139.7 34 (-118.2) + cos (rad 35.7) * X =
      sin (rad 34) := by
    rw [dashCosArg_eq_raw, tokyoLA_dashΔlam, hXdef]
    linear_combination sin (rad 34) * sin_sq_add_cos_sq (rad 35.7)
  have hφarg : sin (rad 35.7) * cos (dashΔσ 35.7 139.7 34 (-118.2)) +
      cos (rad 35.7) * (sin (dashΔσ 35.7 139.7 34 (-118.2)) *
        cos (dashθ 35.7 139.7 34 (-118.2))) = sin (rad 34) := by
    rw [hcosΔσ, hsinΔσ', hcosθ]
    rw [show Real.sqrt (X * X + Y * Y) * (X / Real.sqrt (X * X + Y * Y)) = X by
      field_simp]
    exact harg
  have hmem2 := rad_mem_Ioo (x := 34) (by norm_num) (by norm_num)
  have hφ : Real.arcsin (sin (rad 35.7) * cos (dashΔσ 35.7 139.7 34 (-118.2)) +
      cos (rad 35.7) * sin (dashΔσ 35.7 139.7 34 (-118.2)) *
        cos (dashθ 35.7 139.7 34 (-118.2))) = rad 34 := by
    rw [mul_assoc, hφarg]
    exact Real.arcsin_sin hmem2.1.le hmem2.2.le
  rw [hφ]
  have hY2 : sin (dashθ 35.7 139.7 34 (-118.2)) * sin (dashΔσ 35.7 139.7 34 (-118.2)) *
      cos (rad 35.7) = cos (rad 35.7) * cos (rad 34) * sin (rad 102.1) := by
    rw [hsinθ, hsinΔσ']
    rw [show Y / Real.sqrt (X * X + Y * Y) * Real.sqrt (X * X + Y * Y) = Y by
      field_simp]
    rw [hYdef]
    ring
  have hX2 : cos (dashΔσ 35.7 139.7 34 (-118.2)) - sin (rad 35.7) * sin (rad 34) =
      cos (rad 35.7) * cos (rad 34) * cos (rad 102.1) := by
    rw [hcosΔσ, dashCosArg_eq_raw, tokyoLA_dashΔlam]
    ring
  rw [hY2]
  rw [show cos (dashΔσ 35.7 139.7 34 (-118.2)) - sin (rad 35.7) * sin (rad 34) =
      cos (rad 35.7) * cos (rad 34) * cos (rad 102.1) from hX2]
  have hscale : atan2 (cos (rad 35.7) * cos (rad 34) * sin (rad 102.1))
      (cos (rad 35.7) * cos (rad 34) * cos (rad 102.1)) = rad 102.1 := by
    rw [atan2_mul_left (mul_pos hc1 hc2)]
    exact atan2_sin_cos (rad_mem_Ioc (by norm_num) (by norm_num))
  rw [hscale]
  have hlon : (rad 139.7 + rad 102.1) * 180 / π = 241.8 := by
    unfold rad
    field_simp
    ring
  rw [hlon, rad_cancel]

/-- Tokyo → LA: every interpolated longitude lies in `[139.7, 139.7 + 180)`
(the path runs east from Tokyo and never wraps). -/
theorem tokyoLA_lon_mem (i : ℕ) (hi : i ≤ 100) :
    139.7 ≤ (dashPoint 35.7 139.7 34 (-118.2) 100 i).2 ∧
      (dashPoint 35.7 139.7 34 (-118.2) 100 i).2 < 139.7 + 180 := by
  rcases Nat.eq_zero_or_pos i with rfl | hipos
  · rw [tokyoLA_point_zero]
    norm_num
  · have hc1 := Real.cos_pos_of_mem_Ioo (rad_mem_Ioo (x := 35.7) (by norm_num) (by norm_num))
    have hΔσpos : 0 < dashΔσ 35.7 139.7 34 (-118.2) := by
      have := tokyoLA_pi_div_three_lt_Δσ
      linarith [Real.pi_pos]
    have hσpos : 0 < (i : ℝ) / ((100 : ℕ) : ℝ) * dashΔσ 35.7 139.7 34 (-118.2) := by
      apply mul_pos _ hΔσpos
      apply div_pos (Nat.cast_pos.mpr hipos)
      norm_num
    have hσlt : (i : ℝ) / ((100 : ℕ) : ℝ) * dashΔσ 35.7 139.7 34 (-118.2) < π := by
      have hle1 : (i : ℝ) / ((100 : ℕ) : ℝ) ≤ 1 := by
        rw [div_le_one (by norm_num : (0 : ℝ) < ((100 : ℕ) : ℝ))]
        exact_mod_cast hi
      calc (i : ℝ) / ((100 : ℕ) : ℝ) * dashΔσ 35.7 139.7 34 (-118.2)
          ≤ dashΔσ 35.7 139.7 34 (-118.2) :=
            mul_le_of_le_one_left hΔσpos.le hle1
        _ < π := tokyoLA_Δσ_lt_pi
    have hY : 0 < sin (dashθ 35.7 139.7 34 (-118.2)) *
        sin ((i : ℝ) / ((100 : ℕ) : ℝ) * dashΔσ 35.7 139.7 34 (-118.2)) * cos (rad 35.7) :=
      mul_pos (mul_pos tokyoLA_sin_dashθ_pos
        (Real.sin_pos_of_pos_of_lt_pi hσpos hσlt)) hc1
    simp only [dashPoint]
    exact rad_add_bounds (atan2_nonneg hY.le) (atan2_lt_pi_of_pos hY)

/-- Tokyo → LA: the splitter returns the whole interpolated path as one single
segment (adjacent longitudes never jump by more than `180°`). -/
theorem tokyoLA_single_segment :
    splitAtAntimeridian (calculateGeodesicPoints 35.7 139.7 34 (-118.2) 100) =
      [calculateGeodesicPoints 35.7 139.7 34 (-118.2) 100] := by
  have hmain := calculateGeodesicPoints_of_not_degenerate 35.7 139.7
    34 (-118.2) 100 (not_lt.mpr tokyoLA_Δσ_ge)
  apply splitAtAntimeridian_no_cross
  · rw [hmain]
    simp
  · rw [hmain, List.chain'_map, List.chain'_range_succ]
    intro m hm
    have h1 := tokyoLA_lon_mem m (by omega)
    have h2 := tokyoLA_lon_mem (m + 1) (by omega)
    show |(dashPoint 35.7 139.7 34 (-118.2) 100 (m + 1)).2 -
      (dashPoint 35.7 139.7 34 (-118.2) 100 m).2| ≤ 180
    rw [abs_le]
    constructor <;> linarith [h1.1, h1.2, h2.1, h2.2]

/-- C1 counterexample: for Tokyo `(35.7, 139.7)` → Los Angeles `(34, -118.2)`
the dashboard pipeline's split produces exactly ONE segment — not the claimed
two-or-more segments with a `±179.999` crossing point. -/
theorem tokyoLA_not_two_segments :
    (splitAtAntimeridian (calculateGeodesicPoints 35.7 139.7 34 (-118.2) 100)).length = 1 ∧
      ¬ 2 ≤ (splitAtAntimeridian (calculateGeodesicPoints 35.7 139.7 34 (-118.2) 100)).length := by
  rw [tokyoLA_single_segment]
  norm_num

/-- C1 (amended): for Tokyo → Los Angeles the pipeline interpolates at
resolution `100` (101 points) with the shortest-path unwrap eastwards across
the Pacific: the first point is the origin, every longitude lies at or east of
`139.7`, the last point is `(34, 241.8)` (Los Angeles unwrapped by `+360`),
and splitting returns that path as exactly one segment with no crossing point
inserted. -/
theorem tokyoLA_flight_path :
    (calculateGeodesicPoints 35.7 139.7 34 (-118.2) 100).length = 100 + 1 ∧
      (calculateGeodesicPoints 35.7 139.7 34 (-118.2) 100).head? = some (35.7, 139.7) ∧
      (calculateGeodesicPoints 35.7 139.7 34 (-118.2) 100).getLast? = some (34, 241.8) ∧
      (∀ p ∈ calculateGeodesicPoints 35.7 139.7 34 (-118.2) 100, 139.7 ≤ p.2) ∧
      splitAtAntimeridian (calculateGeodesicPoints 35.7 139.7 34 (-118.2) 100) =
        [calculateGeodesicPoints 35.7 139.7 34 (-118.2) 100] := by
  have hmain := calculateGeodesicPoints_of_not_degenerate 35.7 139.7
    34 (-118.2) 100 (not_lt.mpr tokyoLA_Δσ_ge)
  refine ⟨?_, ?_, ?_, ?_, tokyoLA_single_segment⟩
  · rw [hmain]
    simp
  · rw [hmain, head?_map_range]
    exact congrArg some tokyoLA_point_zero
  · rw [hmain, getLast?_map_range]
    exact congrArg some tokyoLA_point_last
  · intro p hp
    rw [hmain] at hp
    rcases List.mem_map.mp hp with ⟨i, hi, rfl⟩
    exact (tokyoLA_lon_mem i (by simpa using Nat.lt_succ_iff.mp (List.mem_range.mp hi))).1

/-- C4 counterexample: the finalized (interpolated and split) Tokyo → LA
geometry contains the point `(34, 241.8)` whose longitude `241.8` exceeds
`180`: finalized longitudes do not all lie in `[-180, 180]`. -/
theorem tokyoLA_lon_out_of_range :
    ∃ s ∈ splitAtAntimeridian (calculateGeodesicPoints 35.7 139.7 34 (-118.2) 100),
      ∃ p ∈ s, ¬ (p.2 ≤ 180) := by
  refine ⟨calculateGeodesicPoints 35.7 139.7 34 (-118.2) 100,
    by rw [tokyoLA_single_segment]; simp, ((34 : ℝ), 241.8), ?_, by norm_num⟩
  rw [calculateGeodesicPoints_of_not_degenerate 35.7 139.7 34 (-118.2) 100
    (not_lt.mpr tokyoLA_Δσ_ge)]
  exact List.mem_map.mpr ⟨100, by simp, tokyoLA_point_last⟩

/-- C4 (amended): after interpolation and splitting and before world-copy
offsets, every longitude lies within `180°` of the origin longitude
(`(lon1 - 180, lon1 + 180]`), or is one of the two original endpoint
longitudes (degenerate branch), or is an inserted `±179.999` boundary value —
but not necessarily in `[-180, 180]`. -/
theorem finalized_lon_window (lat1 lon1 lat2 lon2 : ℝ) (n : ℕ) (hn : 1 ≤ n) :
    ∀ s ∈ splitAtAntimeridian (calculateGeodesicPoints lat1 lon1 lat2 lon2 n),
      ∀ p ∈ s, (lon1 - 180 < p.2 ∧ p.2 ≤ lon1 + 180) ∨ p.2 = lon1 ∨ p.2 = lon2 ∨
        p.2 = 179.999 ∨ p.2 = -179.999 := by
  intro s hs p hp
  rcases splitAtAntimeridian_provenance _ s hs p hp with hmem | hb | hb
  · unfold calculateGeodesicPoints at hmem
    by_cases hdeg : dashΔσ lat1 lon1 lat2 lon2 < 0.001
    · rw [if_pos hdeg] at hmem
      rcases List.mem_cons.mp hmem with rfl | hmem'
      · exact Or.inr (Or.inl rfl)
      · have hp2 : p = (lat2, lon2) := by simpa using hmem'
        subst hp2
        exact Or.inr (Or.inr (Or.inl rfl))
    · rw [if_neg hdeg] at hmem
      rcases List.mem_map.mp hmem with ⟨i, _, rfl⟩
      left
      simp only [dashPoint]
      exact rad_add_atan2_window lon1 _ _
  · exact Or.inr (Or.inr (Or.inr (Or.inl hb)))
  · exact Or.inr (Or.inr (Or.inr (Or.inr hb)))

/-- Witness for C4 (amended): the degenerate trip `(10, 10) → (10, 10)` at
resolution `1`; its single split segment consists of the origin point, whose
longitude equals `lon1`. -/
theorem finalized_lon_window_witness :
    ((10 : ℝ) - 180 < (((10 : ℝ), (10 : ℝ)) : ℝ × ℝ).2 ∧
        (((10 : ℝ), (10 : ℝ)) : ℝ × ℝ).2 ≤ (10 : ℝ) + 180) ∨
      (((10 : ℝ), (10 : ℝ)) : ℝ × ℝ).2 = 10 ∨ (((10 : ℝ), (10 : ℝ)) : ℝ × ℝ).2 = 10 ∨
      (((10 : ℝ), (10 : ℝ)) : ℝ × ℝ).2 = 179.999 ∨
      (((10 : ℝ), (10 : ℝ)) : ℝ × ℝ).2 = -179.999 := by
  have hpts : calculateGeodesicPoints 10 10 10 10 1 = [((10 : ℝ), 10), (10, 10)] :=
    calculateGeodesicPoints_self 10 10 1
  have hsplit : splitAtAntimeridian (calculateGeodesicPoints 10 10 10 10 1) =
      [[((10 : ℝ), 10), (10, 10)]] := by
    rw [hpts]
    exact splitAtAntimeridian_no_cross (by simp)
      (List.chain'_cons.mpr ⟨by norm_num, List.chain'_singleton _⟩)
  exact finalized_lon_window 10 10 10 10 1 le_rfl [((10 : ℝ), 10), (10, 10)]
    (by rw [hsplit]; simp) ((10 : ℝ), 10) (by simp)

end Geodesic
